import Mathlib

/-!
Shallow embedding of the streaming response-assembly core of the
`streamlit_openai` package (`streamlit_openai/chat.py`): the `Block` /
`Section` transcript data model with its coalescing `update` semantics,
the `save` / `load` archive round trip, and the two-pass `respond`
state machine.  Python exceptions are modelled by `Option`-valued
functions returning `none`; external collaborators (the OpenAI client,
Streamlit rendering, base64 decoding and the sandbox-link rewrite
regex) are abstracted as parameters of an `Env` record, and every
external call made by `respond` is recorded in an explicit trace.
-/

namespace StreamlitOpenai

/-- Content of a block: Python `str` for text-like categories, Python
`bytes` (modelled as `List Nat`) for binary categories. -/
inductive Content where
  | str : String → Content
  | bytes : List Nat → Content
deriving DecidableEq, Repr

/-- Python `+=` on block content: concatenation for `str`/`str` and
`bytes`/`bytes`; a mismatch raises `TypeError` (modelled as `none`). -/
def Content.concat : Content → Content → Option Content
  | .str a, .str b => some (.str (a ++ b))
  | .bytes a, .bytes b => some (.bytes (a ++ b))
  | _, _ => none

/-- `Chat.Block` (chat.py): a typed unit of section content.  The
back-reference to the parent chat is dropped (unused by the modelled
operations). -/
structure Block where
  category : String
  content : Content
  filename : Option String
  file_id : Option String
deriving DecidableEq, Repr

/-- `Chat.create_block` / `Block.__init__`: a `None` content defaults
to the empty string. -/
def createBlock (category : String) (content : Option Content)
    (filename : Option String) (file_id : Option String) : Block :=
  { category := category, content := content.getD (Content.str ""),
    filename := filename, file_id := file_id }

/-- The category test `category in ["text", "code", "reasoning"]` used
by `Section.update`, `Chat.save`, `Chat.load` and `Chat.summarize`. -/
def isTextLike (category : String) : Bool :=
  category = "text" || category = "code" || category = "reasoning"

/-- `Chat.Section` (chat.py): a role plus an optional list of blocks
(`None` until the first content arrives).  The Streamlit
`delta_generator` field is UI state and is dropped. -/
structure Section where
  role : String
  blocks : Option (List Block)
deriving DecidableEq, Repr

/-- `Section.empty` property: true iff `blocks` is `None`. -/
def Section.isEmptySec (s : Section) : Bool :=
  s.blocks.isNone

/-- `Section.update` (chat.py lines 751-764): create the first block,
coalesce text-like content into a matching last block, replace the
content of a matching `generated_image` last block, or append a new
block.  Returns `none` where Python raises (`blocks == []` makes the
`last_block` property raise `IndexError`; a `str`/`bytes` mismatch on
`+=` raises `TypeError`). -/
def Section.update (s : Section) (category : String) (content : Content)
    (filename : Option String) (file_id : Option String) : Option Section :=
  match s.blocks with
  | none =>
      some { s with blocks := some [createBlock category (some content) filename file_id] }
  | some bs =>
      if isTextLike category then
        match bs.getLast? with
        | none => none
        | some lb =>
            if lb.category = category then
              match lb.content.concat content with
              | none => none
              | some c => some { s with blocks := some (bs.dropLast ++ [{ lb with content := c }]) }
            else
              some { s with blocks := some (bs ++ [createBlock category (some content) filename file_id]) }
      else if category = "generated_image" then
        match bs.getLast? with
        | none => none
        | some lb =>
            if lb.category = "generated_image" then
              some { s with blocks := some (bs.dropLast ++ [{ lb with content := content }]) }
            else
              some { s with blocks := some (bs ++ [createBlock category (some content) filename file_id]) }
      else
        some { s with blocks := some (bs ++ [createBlock category (some content) filename file_id]) }

/-- Arguments of one `Section.update` call. -/
structure UpdateArgs where
  category : String
  content : Content
  filename : Option String
  file_id : Option String
deriving DecidableEq, Repr

/-- A sequence of `Section.update` calls, stopping at the first raised
exception. -/
def Section.applyUpdates (s : Section) : List UpdateArgs → Option Section
  | [] => some s
  | u :: us =>
      match s.update u.category u.content u.filename u.file_id with
      | none => none
      | some s' => s'.applyUpdates us

/-- Rendering of Python `None` inside an f-string (used by the
`f"{t}/{block.file_id}-{block.filename}"` sibling-file name). -/
def optStr : Option String → String
  | none => "None"
  | some s => s

/-- The archive name `{file_id}-{filename}` of a binary block's
sibling file. -/
def archiveName (file_id filename : Option String) : String :=
  optStr file_id ++ "-" ++ optStr filename

/-- The per-block `data.json` entry written by `Chat.save` /
`Chat.summarize`. -/
structure SavedBlock where
  category : String
  content : String
  filename : Option String
  file_id : Option String
deriving DecidableEq, Repr

/-- The per-section `data.json` entry. -/
structure SavedSection where
  role : String
  blocks : List SavedBlock
deriving DecidableEq, Repr

/-- `Chat.save`, one block: a text-like block's content goes into the
JSON verbatim; a binary block is written to the sibling file
`{file_id}-{filename}` and the JSON holds the placeholder `"Bytes"`.
Python raises when a text-like block holds bytes (`json.dump` rejects
`bytes`) or a binary block holds a `str` (binary file write rejects
`str`); both are `none`. -/
def saveBlock (b : Block) : Option (SavedBlock × List (String × List Nat)) :=
  if isTextLike b.category then
    match b.content with
    | .str s => some ({ category := b.category, content := s,
                        filename := b.filename, file_id := b.file_id }, [])
    | .bytes _ => none
  else
    match b.content with
    | .bytes d => some ({ category := b.category, content := "Bytes",
                          filename := b.filename, file_id := b.file_id },
                        [(archiveName b.file_id b.filename, d)])
    | .str _ => none

/-- `Chat.save`, the block loop of one section; sibling files are
collected in write order (a later write to the same name overwrites an
earlier one in the temp directory, so the reader below takes the last
occurrence). -/
def saveBlocks : List Block → Option (List SavedBlock × List (String × List Nat))
  | [] => some ([], [])
  | b :: bs =>
      match saveBlock b, saveBlocks bs with
      | some (sb, fs), some (sbs, fss) => some (sb :: sbs, fs ++ fss)
      | _, _ => none

/-- `Chat.save`, one section: iterating `section.blocks` when it is
`None` raises `TypeError` (modelled as `none`). -/
def saveSection (s : Section) : Option (SavedSection × List (String × List Nat)) :=
  match s.blocks with
  | none => none
  | some bs =>
      match saveBlocks bs with
      | none => none
      | some (sbs, fs) => some ({ role := s.role, blocks := sbs }, fs)

/-- `Chat.save` over the whole `_sections` list: the `data.json`
section list plus the archive's sibling binary files. -/
def saveChat : List Section → Option (List SavedSection × List (String × List Nat))
  | [] => some ([], [])
  | s :: ss =>
      match saveSection s, saveChat ss with
      | some (sv, fs), some (svs, fss) => some (sv :: svs, fs ++ fss)
      | _, _ => none

/-- Reading a sibling file from the archive: the last write to a given
name is the one that survives in the temp directory and hence in the
ZIP; a missing name is `FileNotFoundError` (`none`). -/
def readArchive (files : List (String × List Nat)) (name : String) : Option (List Nat) :=
  ((files.filter (fun p => p.1 = name)).getLast?).map (fun p => p.2)

/-- `Chat.load`, one block: text-like blocks are rebuilt from the JSON
content (with no filename / file id, per `create_block(category,
content)`); other blocks read their bytes back from the sibling file
`{file_id}-{filename}`. -/
def loadBlock (files : List (String × List Nat)) (sb : SavedBlock) : Option Block :=
  if isTextLike sb.category then
    some { category := sb.category, content := Content.str sb.content,
           filename := none, file_id := none }
  else
    match readArchive files (archiveName sb.file_id sb.filename) with
    | none => none
    | some d => some { category := sb.category, content := Content.bytes d,
                       filename := sb.filename, file_id := sb.file_id }

/-- `Chat.load`, the block loop of one section. -/
def loadBlocks (files : List (String × List Nat)) : List SavedBlock → Option (List Block)
  | [] => some []
  | sb :: sbs =>
      match loadBlock files sb, loadBlocks files sbs with
      | some b, some bs => some (b :: bs)
      | _, _ => none

/-- `Chat.load`, one section: `add_section(role, blocks=[])` followed
by appends, so the rebuilt section always has `blocks = some _`. -/
def loadSection (files : List (String × List Nat)) (sv : SavedSection) : Option Section :=
  match loadBlocks files sv.blocks with
  | none => none
  | some bs => some { role := sv.role, blocks := some bs }

/-- `Chat.load` over the saved section list. -/
def loadSections (files : List (String × List Nat)) : List SavedSection → Option (List Section)
  | [] => some []
  | sv :: svs =>
      match loadSection files sv, loadSections files svs with
      | some s, some ss => some (s :: ss)
      | _, _ => none

/-- `Chat.save` followed by `Chat.load` on the resulting archive,
projected to the rebuilt `_sections` list. -/
def saveThenLoad (secs : List Section) : Option (List Section) :=
  match saveChat secs with
  | none => none
  | some (svs, fs) => loadSections fs svs

/-- Runtime type consistency of a block (`str` content for text-like
categories, `bytes` otherwise): exactly the condition under which
`Chat.save` can process the block. -/
def Block.wellTyped (b : Block) : Bool :=
  if isTextLike b.category then
    match b.content with | .str _ => true | .bytes _ => false
  else
    match b.content with | .str _ => false | .bytes _ => true

/-- Python `needle in hay` substring test on strings. -/
def strContains (hay needle : String) : Bool :=
  decide (needle.toList <:+: hay.toList)

/-- `pathlib.Path(p).suffix`: the extension of the final path
component, empty when the rightmost dot is the first character of the
name or there is no dot before the last character. -/
def pathSuffix (p : String) : String :=
  let name := (p.toList.reverse.takeWhile (fun c => c != '/')).reverse
  match ((List.range name.length).filter (fun i => name.getD i ' ' = '.')).getLast? with
  | none => ""
  | some i => if 0 < i ∧ i < name.length - 1 then String.mk (name.drop i) else ""

/-- An entry of the pending-input buffer `Chat._input` as appended by
`respond`: a role/content message or a `function_call_output` dict. -/
inductive InputItem where
  | message (role : String) (content : String)
  | functionCallOutput (call_id : String) (output : String)
deriving DecidableEq, Repr

/-- The streaming events consumed by `Chat.respond`.  `genImage`
carries the already base64-decoded partial image payload; `other`
stands for any event type matched by none of the `elif` branches
(including `response.output_item.done` items that are not function
calls). -/
inductive Event where
  | completed (response_id : String) (inTokens outTokens : Nat)
  | outputTextDelta (delta : String)
  | codeDelta (delta : String)
  | functionCallDone (name arguments call_id : String)
  | reasoningDelta (delta : String)
  | reasoningDone
  | genImage (decoded : List Nat) (item_id output_format : String)
  | annotationAdded (annType file_id filename : String)
  | other
deriving DecidableEq, Repr

/-- `utils.CustomFunction`, restricted to what `respond` uses: the
name and the composite `str(handler(**json.loads(arguments)))` step,
abstracted as a function from the raw JSON argument string to the
stringified result (`none` models a JSON parse error or an exception
raised by the handler). -/
structure CustomFunction where
  name : String
  handler : String → Option String

/-- The chat fields read or written by `Chat.respond`.  `temperature`
is only ever passed through to the API, never computed with, so its
Python float is modelled as `Rat`; `tools` holds the opaque
tool-advertisement payloads built in `__init__`, which `respond` also
only passes through. -/
structure ChatState where
  model : String
  instructions : String
  temperature : Rat
  tools : List String
  functions : Option (List CustomFunction)
  container_id : Option String
  sections : List Section
  input : List InputItem
  previous_response_id : Option String
  input_tokens : Nat
  output_tokens : Nat

/-- The external world of one `respond` call: the two event streams
returned by the streaming generation calls, the container file store
(`client.containers.files.content.retrieve(...).read()`), and the
sandbox-link rewrite transform (abstracting the fixed `re.sub` applied
after every text delta at chat.py line 371). -/
structure Env where
  stream1 : List Event
  stream2 : List Event
  fileContent : String → Option String → List Nat
  sandboxRewrite : String → String

/-- The payload of one `client.responses.create` call made by
`respond`.  `reasoning` records whether the `reasoning={"summary":
"auto"}` parameter was passed (first call only in the source). -/
structure Request where
  model : String
  input : List InputItem
  instructions : String
  temperature : Rat
  tools : List String
  previous_response_id : Option String
  reasoning : Bool
deriving DecidableEq, Repr

/-- One external call made during `respond`, in execution order. -/
inductive Call where
  | createResponse (req : Request)
  | invokeHandler (name arguments : String)
  | retrieveFile (file_id : String) (container_id : Option String)
deriving DecidableEq, Repr

/-- The `DEVELOPER_MESSAGE` constant prepended to the instructions of
every generation call. -/
def DEVELOPER_MESSAGE : String :=
  "\n- Use GitHub-flavored Markdown in your response, including tables, images, URLs, code blocks, and lists.\n- Wrap all mathematical expressions and LaTeX terms in `$...$` for inline math and `$$...$$` for display math.\n- When a custom function is called with a file path as its input, you must use the local file path.\n"

/-- `self.last_section.update_and_stream(...)`: update the last
section (the `last_section` property is `None` on an empty section
list, making the call raise).  The `stream()` half is pure UI and is
dropped. -/
def ChatState.updateLast (st : ChatState) (category : String) (content : Content)
    (filename : Option String) (file_id : Option String) : Option ChatState :=
  match st.sections.getLast? with
  | none => none
  | some sec =>
      match sec.update category content filename file_id with
      | none => none
      | some sec' => some { st with sections := st.sections.dropLast ++ [sec'] }

/-- Direct mutation `self.last_section.last_block.content = f(...)`
(used by the text-delta rewrite and the reasoning paragraph break);
raises (`none`) when there is no last section, its blocks are `None`
or `[]`, or `f` itself raises. -/
def ChatState.modifyLastBlockContent (st : ChatState) (f : Content → Option Content) :
    Option ChatState :=
  match st.sections.getLast? with
  | none => none
  | some sec =>
      match sec.blocks with
      | none => none
      | some bs =>
          match bs.getLast? with
          | none => none
          | some b =>
              match f b.content with
              | none => none
              | some c =>
                  some { st with sections := st.sections.dropLast ++
                    [{ sec with blocks := some (bs.dropLast ++ [{ b with content := c }]) }] }

/-- The `tool_calls` dict of `respond`: name-keyed entries holding the
event's `item.arguments` and `item.call_id`, with Python
insertion-order semantics (assigning an existing key replaces the
value in place). -/
def upsertTC (tc : List (String × String × String)) (name arguments call_id : String) :
    List (String × String × String) :=
  if tc.any (fun t => t.1 = name) then
    tc.map (fun t => if t.1 = name then (name, arguments, call_id) else t)
  else
    tc ++ [(name, arguments, call_id)]

/-- One iteration of the first event-consumption loop of `respond`
(chat.py lines 364-413), returning the new chat/tool-call state
(`none` where the Python body raises) together with the external calls
it performed. -/
def processEvent1 (env : Env) (st : ChatState) (tc : List (String × String × String))
    (e : Event) : Option (ChatState × List (String × String × String)) × List Call :=
  match e with
  | .completed id it ot =>
      (some ({ st with previous_response_id := some id,
                       input_tokens := st.input_tokens + it,
                       output_tokens := st.output_tokens + ot }, tc), [])
  | .outputTextDelta d =>
      match st.updateLast "text" (Content.str d) none none with
      | none => (none, [])
      | some st' =>
          ((st'.modifyLastBlockContent (fun c =>
              match c with
              | .str s => some (.str (env.sandboxRewrite s))
              | .bytes _ => none)).map (fun st'' => (st'', tc)), [])
  | .codeDelta d =>
      ((st.updateLast "code" (Content.str d) none none).map (fun st' => (st', tc)), [])
  | .functionCallDone name arguments call_id =>
      (some (st, upsertTC tc name arguments call_id), [])
  | .reasoningDelta d =>
      ((st.updateLast "reasoning" (Content.str d) none none).map (fun st' => (st', tc)), [])
  | .reasoningDone =>
      ((st.modifyLastBlockContent (fun c =>
          match c with
          | .str s => some (.str (s ++ "\n\n"))
          | .bytes _ => none)).map (fun st' => (st', tc)), [])
  | .genImage decoded item_id output_format =>
      ((st.updateLast "generated_image" (Content.bytes decoded)
          (some (item_id ++ "." ++ output_format)) (some item_id)).map
        (fun st' => (st', tc)), [])
  | .annotationAdded annType file_id filename =>
      if annType = "file_citation" then (some (st, tc), [])
      else if annType = "container_file_citation" then
        if strContains filename file_id then
          if pathSuffix filename ∈ ([".png", ".jpg", ".jpeg"] : List String) then
            ((st.updateLast "image" (Content.bytes (env.fileContent file_id st.container_id))
                (some filename) (some file_id)).map (fun st' => (st', tc)),
             [Call.retrieveFile file_id st.container_id])
          else (some (st, tc), [])
        else
          ((st.updateLast "download" (Content.bytes (env.fileContent file_id st.container_id))
              (some filename) (some file_id)).map (fun st' => (st', tc)),
           [Call.retrieveFile file_id st.container_id])
      else (some (st, tc), [])
  | .other => (some (st, tc), [])

/-- The first event-consumption loop of `respond` over a whole stream,
accumulating the trace; a raising iteration aborts the loop. -/
def runLoop1 (env : Env) : ChatState → List (String × String × String) → List Event →
    Option (ChatState × List (String × String × String)) × List Call
  | st, tc, [] => (some (st, tc), [])
  | st, tc, e :: es =>
      match processEvent1 env st tc e with
      | (none, cs) => (none, cs)
      | (some (st', tc'), cs) =>
          match runLoop1 env st' tc' es with
          | (r, cs') => (r, cs ++ cs')

/-- The tool-resolution loop of `respond` (chat.py lines 415-422): for
each recorded tool call, look the handler up by name (`[x for x in
self.functions if x.name == tool][0]` raises `TypeError` when
`functions` is `None` and `IndexError` when no name matches), invoke
it, and append a `function_call_output` entry to the pending-input
buffer. -/
def runTools (fns : Option (List CustomFunction)) :
    ChatState → List (String × String × String) → Option ChatState × List Call
  | st, [] => (some st, [])
  | st, (name, arguments, call_id) :: rest =>
      match fns with
      | none => (none, [])
      | some fs =>
          match fs.filter (fun f => f.name = name) with
          | [] => (none, [])
          | f :: _ =>
              match f.handler arguments with
              | none => (none, [Call.invokeHandler name arguments])
              | some r =>
                  match runTools fns
                      { st with input := st.input ++ [InputItem.functionCallOutput call_id r] }
                      rest with
                  | (res, cs) => (res, Call.invokeHandler name arguments :: cs)

/-- One iteration of the second event-consumption loop of `respond`
(chat.py lines 433-437): only `response.completed` (which updates the
continuation handle, not the token counters) and text deltas (without
the sandbox-link rewrite) are handled; every other event type is
ignored. -/
def processEvent2 (st : ChatState) (e : Event) : Option ChatState :=
  match e with
  | .completed id _ _ => some { st with previous_response_id := some id }
  | .outputTextDelta d => st.updateLast "text" (Content.str d) none none
  | _ => some st

/-- The second event-consumption loop over a whole stream. -/
def runLoop2 : ChatState → List Event → Option ChatState
  | st, [] => some st
  | st, e :: es =>
      match processEvent2 st e with
      | none => none
      | some st' => runLoop2 st' es

/-- The request payload built by `respond` from the current chat
state. -/
def mkRequest (st : ChatState) (reasoning : Bool) : Request :=
  { model := st.model, input := st.input,
    instructions := DEVELOPER_MESSAGE ++ st.instructions,
    temperature := st.temperature, tools := st.tools,
    previous_response_id := st.previous_response_id, reasoning := reasoning }

/-- `Chat.respond(prompt)` (chat.py lines 348-437): queue the prompt,
open a fresh assistant section, issue the first streaming call,
immediately clear the pending-input buffer, consume the first stream,
then — only when tool calls were recorded — resolve them, issue the
second streaming call, clear the buffer again and consume the second
stream.  Returns the final chat state (`none` when the Python body
raises) and the trace of external calls up to that point. -/
def respond (st0 : ChatState) (env : Env) (prompt : String) :
    Option ChatState × List Call :=
  let st1 : ChatState :=
    { st0 with input := st0.input ++ [InputItem.message "user" prompt],
               sections := st0.sections ++ [{ role := "assistant", blocks := none }] }
  let req1 := mkRequest st1 true
  let st2 : ChatState := { st1 with input := [] }
  match runLoop1 env st2 [] env.stream1 with
  | (none, cs1) => (none, Call.createResponse req1 :: cs1)
  | (some (st3, tc), cs1) =>
      if tc.isEmpty then (some st3, Call.createResponse req1 :: cs1)
      else
        match runTools st3.functions st3 tc with
        | (none, cs2) => (none, Call.createResponse req1 :: cs1 ++ cs2)
        | (some st4, cs2) =>
            let req2 := mkRequest st4 false
            let st5 : ChatState := { st4 with input := [] }
            match runLoop2 st5 env.stream2 with
            | none =>
                (none, Call.createResponse req1 :: cs1 ++ cs2 ++ [Call.createResponse req2])
            | some st6 =>
                (some st6, Call.createResponse req1 :: cs1 ++ cs2 ++ [Call.createResponse req2])

/-- The names carried by `function_call` output-item-done events of a
stream, in arrival order. -/
def fcNames : List Event → List String
  | [] => []
  | .functionCallDone n _ _ :: es => n :: fcNames es
  | _ :: es => fcNames es

/-- The names of the registered custom functions (empty when
`functions` is `None`). -/
def functionNames : Option (List CustomFunction) → List String
  | none => []
  | some fs => fs.map (fun f => f.name)

/-- The generation-call payloads of a trace, in order. -/
def createRequests : List Call → List Request
  | [] => []
  | .createResponse r :: cs => r :: createRequests cs
  | _ :: cs => createRequests cs

/-- The continuation handle after consuming a stream: the id of the
last `response.completed` event, or the initial handle when none
occurred. -/
def lastResponseId (init : Option String) : List Event → Option String
  | [] => init
  | .completed id _ _ :: es => lastResponseId (some id) es
  | _ :: es => lastResponseId init es

/-! ### Claims about `Section.update` -/

/-- C1: `Section.update(category, content, filename, file_id)` creates
a single new block when the section has no blocks yet; concatenates
onto the last block's content when the category is text/code/reasoning
and matches the last block's category; replaces the last block's
content when category and last block are both `generated_image`; in
every other case appends a new block at the end; and interleaving a
code update between two text updates yields three blocks in order
text, code, text. -/
theorem c1_update_cases :
    (∀ (s : Section) (category : String) (content : Content)
        (filename file_id : Option String), s.blocks = none →
        s.update category content filename file_id =
          some { s with blocks := some [createBlock category (some content) filename file_id] }) ∧
    (∀ (s : Section) (bs : List Block) (lb : Block) (category a d : String)
        (filename file_id : Option String),
        s.blocks = some (bs ++ [lb]) → isTextLike category = true →
        lb.category = category → lb.content = Content.str a →
        s.update category (Content.str d) filename file_id =
          some { s with blocks := some (bs ++ [{ lb with content := Content.str (a ++ d) }]) }) ∧
    (∀ (s : Section) (bs : List Block) (lb : Block) (content : Content)
        (filename file_id : Option String),
        s.blocks = some (bs ++ [lb]) → lb.category = "generated_image" →
        s.update "generated_image" content filename file_id =
          some { s with blocks := some (bs ++ [{ lb with content := content }]) }) ∧
    (∀ (s : Section) (bs : List Block) (lb : Block) (category : String) (content : Content)
        (filename file_id : Option String),
        s.blocks = some (bs ++ [lb]) →
        ¬(isTextLike category = true ∧ lb.category = category) →
        ¬(category = "generated_image" ∧ lb.category = "generated_image") →
        s.update category content filename file_id =
          some { s with
            blocks := some (bs ++ [lb, createBlock category (some content) filename file_id]) }) ∧
    (∀ (role a b c : String),
        (Section.mk role none).applyUpdates
          [⟨"text", Content.str a, none, none⟩, ⟨"code", Content.str b, none, none⟩,
           ⟨"text", Content.str c, none, none⟩] =
        some ⟨role, some [⟨"text", Content.str a, none, none⟩, ⟨"code", Content.str b, none, none⟩,
           ⟨"text", Content.str c, none, none⟩]⟩) := by
  refine ⟨?_, ?_, ?_, ?_, ?_⟩
  · intro s category content filename file_id h
    simp [Section.update, h]
  · intro s bs lb category a d filename file_id h ht hc ha
    simp [Section.update, h, ht, List.getLast?_concat, hc, ha, Content.concat,
      List.dropLast_concat]
  · intro s bs lb content filename file_id h hc
    have ht : isTextLike "generated_image" = false := by decide
    simp [Section.update, h, ht, List.getLast?_concat, hc, List.dropLast_concat]
  · intro s bs lb category content filename file_id h hne hng
    by_cases ht : isTextLike category = true
    · have hc : ¬ lb.category = category := fun hc => hne ⟨ht, hc⟩
      simp [Section.update, h, ht, List.getLast?_concat, hc]
    · by_cases hg : category = "generated_image"
      · have hc : ¬ lb.category = "generated_image" := fun hc => hng ⟨hg, hc⟩
        subst hg
        simp [Section.update, h, ht, List.getLast?_concat, hc]
      · simp [Section.update, h, ht, hg]
  · intro role a b c
    simp [Section.applyUpdates, Section.update, createBlock, isTextLike,
      List.getLast?_concat]

/-- Closed witness for C1 at concrete inputs. -/
theorem c1_update_cases_witness :
    (Section.mk "assistant" none).update "text" (Content.str "hi") none none =
      some { Section.mk "assistant" none with
        blocks := some [createBlock "text" (some (Content.str "hi")) none none] } ∧
    (Section.mk "assistant" (some [⟨"text", Content.str "a", none, none⟩])).update
        "text" (Content.str "b") none none =
      some { Section.mk "assistant" (some [⟨"text", Content.str "a", none, none⟩]) with
        blocks := some ([] ++ [{ Block.mk "text" (Content.str "a") none none with
          content := Content.str ("a" ++ "b") }]) } ∧
    (Section.mk "assistant" (some [⟨"generated_image", Content.bytes [0], none, none⟩])).update
        "generated_image" (Content.bytes [1]) none none =
      some { Section.mk "assistant" (some [⟨"generated_image", Content.bytes [0], none, none⟩]) with
        blocks := some ([] ++ [{ Block.mk "generated_image" (Content.bytes [0]) none none with
          content := Content.bytes [1] }]) } ∧
    (Section.mk "assistant" (some [⟨"text", Content.str "a", none, none⟩])).update
        "code" (Content.str "x") none none =
      some { Section.mk "assistant" (some [⟨"text", Content.str "a", none, none⟩]) with
        blocks := some ([] ++ [Block.mk "text" (Content.str "a") none none,
          createBlock "code" (some (Content.str "x")) none none]) } ∧
    (Section.mk "u" none).applyUpdates
        [⟨"text", Content.str "p", none, none⟩, ⟨"code", Content.str "q", none, none⟩,
         ⟨"text", Content.str "r", none, none⟩] =
      some ⟨"u", some [⟨"text", Content.str "p", none, none⟩, ⟨"code", Content.str "q", none, none⟩,
         ⟨"text", Content.str "r", none, none⟩]⟩ := by
  refine ⟨c1_update_cases.1 _ _ _ _ _ rfl,
    c1_update_cases.2.1 _ [] _ "text" "a" "b" _ _ rfl (by decide) rfl rfl,
    c1_update_cases.2.2.1 _ [] _ _ _ _ rfl rfl,
    c1_update_cases.2.2.2.1 _ [] _ "code" _ _ _ rfl (by decide) (by decide),
    c1_update_cases.2.2.2.2 "u" "p" "q" "r"⟩

/-- Helper: a run of `generated_image` updates on a section holding a
single `generated_image` block keeps that single block and replaces
its content with the most recent payload (its filename and file id are
untouched). -/
theorem applyUpdates_genImage_singleton
    (rest : List (Content × Option String × Option String)) :
    ∀ (role : String) (b : Block), b.category = "generated_image" →
    (Section.mk role (some [b])).applyUpdates
        (rest.map (fun r => ⟨"generated_image", r.1, r.2.1, r.2.2⟩)) =
      some ⟨role, some [{ b with content := (rest.map (fun r => r.1)).getLastD b.content }]⟩ := by
  induction rest with
  | nil =>
      intro role b _
      cases b
      simp [Section.applyUpdates]
  | cons hd tl ih =>
      intro role b hb
      obtain ⟨cat, cont, fn, fi⟩ := b
      have hcat : cat = "generated_image" := hb
      subst hcat
      have hup : (Section.mk role (some [⟨"generated_image", cont, fn, fi⟩])).update
          "generated_image" hd.1 hd.2.1 hd.2.2 =
          some ⟨role, some [⟨"generated_image", hd.1, fn, fi⟩]⟩ := by
        simp [Section.update, isTextLike]
      have ih' := ih role ⟨"generated_image", hd.1, fn, fi⟩ rfl
      simp only [List.map_cons, Section.applyUpdates, hup, ih', List.getLastD_cons]

/-- C7 (amended): after any successful `generated_image` update the
section's last block has category `generated_image` and holds exactly
the payload of that update; and a sequence consisting solely of
`generated_image` updates on a fresh section leaves exactly one block,
of that category, holding the most recent payload (the claim's further
generalisation to interleaved other categories fails, see the
counterexample). -/
theorem c7_generated_image :
    (∀ (s : Section) (content : Content) (filename file_id : Option String) (s' : Section),
        s.update "generated_image" content filename file_id = some s' →
        ∃ (bs : List Block) (lb : Block), s'.blocks = some (bs ++ [lb]) ∧
          lb.category = "generated_image" ∧ lb.content = content) ∧
    (∀ (role : String) (c0 : Content) (f0 i0 : Option String)
        (rest : List (Content × Option String × Option String)),
        (Section.mk role none).applyUpdates
          (⟨"generated_image", c0, f0, i0⟩ ::
            rest.map (fun r => ⟨"generated_image", r.1, r.2.1, r.2.2⟩)) =
        some ⟨role, some [⟨"generated_image", (rest.map (fun r => r.1)).getLastD c0, f0, i0⟩]⟩) := by
  constructor
  · intro s content filename file_id s' h
    match hb : s.blocks with
    | none =>
        refine ⟨[], createBlock "generated_image" (some content) filename file_id, ?_, rfl, rfl⟩
        simp [Section.update, hb] at h
        simp [← h]
    | some bs =>
        have hfalse : isTextLike "generated_image" = false := by decide
        match hl : bs.getLast? with
        | none => simp [Section.update, hb, hfalse, hl] at h
        | some lb =>
            by_cases hc : lb.category = "generated_image"
            · refine ⟨bs.dropLast, ⟨"generated_image", content, lb.filename, lb.file_id⟩,
                ?_, rfl, rfl⟩
              simp [Section.update, hb, hfalse, hl, hc] at h
              simp [← h]
            · refine ⟨bs, createBlock "generated_image" (some content) filename file_id,
                ?_, rfl, rfl⟩
              simp [Section.update, hb, hfalse, hl, hc] at h
              simp [← h]
  · intro role c0 f0 i0 rest
    have hup : (Section.mk role none).update "generated_image" c0 f0 i0 =
        some ⟨role, some [createBlock "generated_image" (some c0) f0 i0]⟩ := by
      simp [Section.update]
    simp only [Section.applyUpdates, hup]
    exact applyUpdates_genImage_singleton rest role
      (createBlock "generated_image" (some c0) f0 i0) rfl

/-- Closed counterexample to C7 as stated: a text update between two
`generated_image` updates leaves the section with TWO blocks of
category `generated_image` (the code appends a fresh block after any
category switch), not exactly one. -/
theorem c7_counterexample :
    (Section.mk "assistant" none).applyUpdates
        [⟨"generated_image", Content.bytes [0], none, none⟩, ⟨"text", Content.str "t", none, none⟩,
         ⟨"generated_image", Content.bytes [1], none, none⟩] =
      some ⟨"assistant",
        some [⟨"generated_image", Content.bytes [0], none, none⟩,
          ⟨"text", Content.str "t", none, none⟩,
          ⟨"generated_image", Content.bytes [1], none, none⟩]⟩ ∧
    (([⟨"generated_image", Content.bytes [0], none, none⟩,
       ⟨"text", Content.str "t", none, none⟩,
       ⟨"generated_image", Content.bytes [1], none, none⟩] : List Block).filter
        (fun b => b.category = "generated_image")).length = 2 := by
  constructor
  · decide
  · decide

/-- Closed witness for C7 at concrete inputs. -/
theorem c7_generated_image_witness :
    (∃ (bs : List Block) (lb : Block),
        (Section.mk "assistant"
            (some [⟨"generated_image", Content.bytes [9], some "a.png", some "f1"⟩])).blocks =
          some (bs ++ [lb]) ∧
        lb.category = "generated_image" ∧ lb.content = Content.bytes [9]) ∧
    (Section.mk "assistant" none).applyUpdates
        [⟨"generated_image", Content.bytes [0], some "a.png", some "f1"⟩,
         ⟨"generated_image", Content.bytes [1], some "b.png", some "f2"⟩,
         ⟨"generated_image", Content.bytes [2], some "c.png", some "f3"⟩] =
      some ⟨"assistant", some [⟨"generated_image", Content.bytes [2], some "a.png", some "f1"⟩]⟩ := by
  constructor
  · exact c7_generated_image.1
      (Section.mk "assistant" (some [⟨"generated_image", Content.bytes [0], some "a.png",
        some "f1"⟩])) (Content.bytes [9]) none none
      ⟨"assistant", some [⟨"generated_image", Content.bytes [9], some "a.png", some "f1"⟩]⟩
      (by decide)
  · have := c7_generated_image.2 "assistant" (Content.bytes [0]) (some "a.png") (some "f1")
      [(Content.bytes [1], some "b.png", some "f2"), (Content.bytes [2], some "c.png", some "f3")]
    simpa using this

/-- C10: when a `generated_image` update coalesces into an existing
`generated_image` last block, only the content is replaced; the
block's filename and file id keep their previous values, and the
filename / file id arguments of the call (arbitrary below, absent from
the result) are discarded. -/
theorem c10_genimage_frame :
    ∀ (s : Section) (bs : List Block) (lb : Block) (content : Content)
      (filename file_id : Option String),
      s.blocks = some (bs ++ [lb]) → lb.category = "generated_image" →
      s.update "generated_image" content filename file_id =
        some { s with
          blocks := some (bs ++ [Block.mk "generated_image" content lb.filename lb.file_id]) } := by
  intro s bs lb content filename file_id h hc
  have hfalse : isTextLike "generated_image" = false := by decide
  have : { lb with content := content } =
      Block.mk "generated_image" content lb.filename lb.file_id := by
    cases lb
    simp_all
  simp [Section.update, h, hfalse, List.getLast?_concat, hc, List.dropLast_concat, this]

/-- Closed witness for C10 at a concrete input: the update's filename
and file id arguments differ from the block's stored values, and the
stored values survive. -/
theorem c10_genimage_frame_witness :
    (Section.mk "assistant" (some [⟨"generated_image", Content.bytes [0], some "old.png",
        some "oldid"⟩])).update "generated_image" (Content.bytes [7]) (some "new.png")
        (some "newid") =
      some { Section.mk "assistant" (some [⟨"generated_image", Content.bytes [0], some "old.png",
        some "oldid"⟩]) with
        blocks := some ([] ++ [Block.mk "generated_image" (Content.bytes [7]) (some "old.png")
          (some "oldid")]) } :=
  c10_genimage_frame _ [] ⟨"generated_image", Content.bytes [0], some "old.png", some "oldid"⟩
    (Content.bytes [7]) (some "new.png") (some "newid") rfl rfl

/-! ### Claims about `Chat.save` / `Chat.load` -/

/-- A section `Chat.save` can process: a present block list all of
whose blocks are type-consistent. -/
def Section.savable (s : Section) : Bool :=
  match s.blocks with
  | none => false
  | some bs => bs.all Block.wellTyped

/-- `saveBlock` succeeds exactly on type-consistent blocks. -/
theorem saveBlock_isSome (b : Block) : (saveBlock b).isSome = b.wellTyped := by
  rcases hc : b.content with s | d <;> by_cases ht : isTextLike b.category <;>
    simp [saveBlock, Block.wellTyped, hc, ht]

/-- `saveBlocks` succeeds exactly when every block is
type-consistent. -/
theorem saveBlocks_isSome (bs : List Block) :
    (saveBlocks bs).isSome = bs.all Block.wellTyped := by
  induction bs with
  | nil => simp [saveBlocks]
  | cons b bs ih =>
      rcases hb : saveBlock b with _ | p
      · have hw : b.wellTyped = false := by rw [← saveBlock_isSome, hb]; rfl
        simp [saveBlocks, hb, hw]
      · obtain ⟨sb, fs⟩ := p
        rcases hbs : saveBlocks bs with _ | q
        · have hw : bs.all Block.wellTyped = false := by rw [← ih, hbs]; rfl
          simp [saveBlocks, hb, hbs, hw]
        · obtain ⟨sbs, fss⟩ := q
          have hw1 : b.wellTyped = true := by rw [← saveBlock_isSome, hb]; rfl
          have hw2 : bs.all Block.wellTyped = true := by rw [← ih, hbs]; rfl
          simp [saveBlocks, hb, hbs, hw1, hw2]

/-- `saveSection` succeeds exactly on savable sections. -/
theorem saveSection_isSome (s : Section) : (saveSection s).isSome = s.savable := by
  rcases hb : s.blocks with _ | bs
  · simp [saveSection, Section.savable, hb]
  · rcases hbs : saveBlocks bs with _ | q
    · have hw : bs.all Block.wellTyped = false := by rw [← saveBlocks_isSome, hbs]; rfl
      simp [saveSection, Section.savable, hb, hbs, hw]
    · obtain ⟨sbs, fs⟩ := q
      have hw : bs.all Block.wellTyped = true := by rw [← saveBlocks_isSome, hbs]; rfl
      simp [saveSection, Section.savable, hb, hbs, hw]

/-- `saveChat` succeeds exactly when every section is savable. -/
theorem saveChat_isSome (secs : List Section) :
    (saveChat secs).isSome = secs.all Section.savable := by
  induction secs with
  | nil => simp [saveChat]
  | cons s ss ih =>
      rcases hs : saveSection s with _ | p
      · have hw : s.savable = false := by rw [← saveSection_isSome, hs]; rfl
        simp [saveChat, hs, hw]
      · obtain ⟨sv, fs⟩ := p
        rcases hss : saveChat ss with _ | q
        · have hw : ss.all Section.savable = false := by rw [← ih, hss]; rfl
          simp [saveChat, hs, hss, hw]
        · obtain ⟨svs, fss⟩ := q
          have hw1 : s.savable = true := by rw [← saveSection_isSome, hs]; rfl
          have hw2 : ss.all Section.savable = true := by rw [← ih, hss]; rfl
          simp [saveChat, hs, hss, hw1, hw2]

/-- A section is savable iff it has a (possibly empty) block list of
type-consistent blocks. -/
theorem savable_iff (s : Section) :
    s.savable = true ↔ ∃ bs, s.blocks = some bs ∧ ∀ b ∈ bs, b.wellTyped = true := by
  rcases hb : s.blocks with _ | bs <;> simp [Section.savable, hb, List.all_eq_true]

/-- C9 (amended): `Chat.save` raises whenever some section's blocks
attribute is still `None` (iterating `None` raises, with no
empty-section guard like the one `summarize` applies); but "at least
one block" is not required: save succeeds exactly when every section
has a present — possibly empty — block list whose blocks are
type-consistent. -/
theorem c9_save_empty_sections :
    ∀ secs : List Section,
      ((∃ s ∈ secs, s.blocks = none) → saveChat secs = none) ∧
      ((saveChat secs).isSome = true ↔
        ∀ s ∈ secs, ∃ bs, s.blocks = some bs ∧ ∀ b ∈ bs, b.wellTyped = true) := by
  intro secs
  constructor
  · rintro ⟨s, hs, hnone⟩
    rcases hsc : saveChat secs with _ | v
    · rfl
    · have h1 : (saveChat secs).isSome = true := by rw [hsc]; rfl
      rw [saveChat_isSome, List.all_eq_true] at h1
      have h2 := h1 s hs
      simp [Section.savable, hnone] at h2
  · rw [saveChat_isSome, List.all_eq_true]
    constructor
    · intro h s hs
      exact (savable_iff s).mp (h s hs)
    · intro h s hs
      exact (savable_iff s).mpr (h s hs)

/-- Closed witness for C9 at a concrete input: a chat whose only
section has blocks `None` fails to save. -/
theorem c9_save_empty_sections_witness :
    saveChat [Section.mk "assistant" none,
      Section.mk "user" (some [⟨"text", Content.str "hi", none, none⟩])] = none :=
  (c9_save_empty_sections _).1 ⟨Section.mk "assistant" none, by simp, rfl⟩

/-- Closed counterexample to C9's final clause as stated: a section
with an EMPTY block list (zero blocks, but not `None`) saves
successfully, so "save succeeds only if every section holds at least
one block" is false. -/
theorem c9_counterexample :
    saveChat [Section.mk "assistant" (some [])] = some ([SavedSection.mk "assistant" []], []) ∧
    (Section.mk "assistant" (some [])).blocks = some [] := by
  constructor
  · decide
  · rfl

/-- The sibling-file archive is collision-free enough to round-trip:
any two entries sharing a name carry the same bytes. -/
def filesConsistent (F : List (String × List Nat)) : Prop :=
  ∀ p ∈ F, ∀ q ∈ F, p.1 = q.1 → p.2 = q.2

/-- The reloaded block has the category and exact content (characters
for text-like, bytes otherwise) of the original. -/
def blockMatches (b b' : Block) : Prop :=
  b'.category = b.category ∧ b'.content = b.content

/-- The reloaded section has the role of the original and blockwise
matching blocks. -/
def sectionMatches (s s' : Section) : Prop :=
  s'.role = s.role ∧ ∃ bs bs', s.blocks = some bs ∧ s'.blocks = some bs' ∧
    List.Forall₂ blockMatches bs bs'

/-- Reading a name present in the archive succeeds and returns some
entry of the archive with that name. -/
theorem readArchive_mem {F : List (String × List Nat)} {name : String} {d : List Nat}
    (h : (name, d) ∈ F) : ∃ v, readArchive F name = some v ∧ (name, v) ∈ F := by
  have hmem : (name, d) ∈ F.filter (fun p => p.1 = name) := by
    simp [List.mem_filter, h]
  rcases hl : (F.filter (fun p => p.1 = name)).getLast? with _ | q
  · rw [List.getLast?_eq_none_iff] at hl
    rw [hl] at hmem
    cases hmem
  · have hq : q ∈ F.filter (fun p => p.1 = name) := List.mem_of_mem_getLast? (by simp [hl])
    rw [List.mem_filter] at hq
    refine ⟨q.2, by simp [readArchive, hl], ?_⟩
    have h1 : q.1 = name := by simpa using hq.2
    rw [← h1]
    exact hq.1

/-- A saved block reloads to a matching block, provided its sibling
file (if any) survives in a consistent global archive. -/
theorem loadBlock_of_saveBlock {b : Block} {sb : SavedBlock} {fs F : List (String × List Nat)}
    (hs : saveBlock b = some (sb, fs)) (hsub : fs ⊆ F) (hc : filesConsistent F) :
    ∃ b', loadBlock F sb = some b' ∧ blockMatches b b' := by
  by_cases ht : isTextLike b.category
  · rcases hcont : b.content with s | d
    · simp only [saveBlock, if_pos ht, hcont, Option.some.injEq, Prod.mk.injEq] at hs
      obtain ⟨hsb, hfs⟩ := hs
      refine ⟨⟨b.category, Content.str s, none, none⟩, ?_, rfl, hcont.symm⟩
      rw [← hsb]
      simp [loadBlock, ht]
    · simp [saveBlock, ht, hcont] at hs
  · rcases hcont : b.content with s | d
    · simp [saveBlock, ht, hcont] at hs
    · simp only [saveBlock, if_neg ht, hcont, Option.some.injEq, Prod.mk.injEq] at hs
      obtain ⟨hsb, hfs⟩ := hs
      have hmem : (archiveName b.file_id b.filename, d) ∈ F := by
        apply hsub
        rw [← hfs]
        simp
      obtain ⟨v, hread, hvmem⟩ := readArchive_mem hmem
      have hv : v = d := hc _ hvmem _ hmem rfl
      rw [hv] at hread
      refine ⟨⟨b.category, Content.bytes d, b.filename, b.file_id⟩, ?_, rfl, hcont.symm⟩
      rw [← hsb]
      simp [loadBlock, ht, hread]

/-- A saved block list reloads to blockwise matching blocks. -/
theorem loadBlocks_of_saveBlocks :
    ∀ {bs : List Block} {sbs : List SavedBlock} {fs F : List (String × List Nat)},
    saveBlocks bs = some (sbs, fs) → fs ⊆ F → filesConsistent F →
    ∃ bs', loadBlocks F sbs = some bs' ∧ List.Forall₂ blockMatches bs bs' := by
  intro bs
  induction bs with
  | nil =>
      intro sbs fs F hs _ _
      simp only [saveBlocks, Option.some.injEq, Prod.mk.injEq] at hs
      obtain ⟨hsbs, _⟩ := hs
      exact ⟨[], by rw [← hsbs]; rfl, List.Forall₂.nil⟩
  | cons b bs ih =>
      intro sbs fs F hs hsub hc
      rcases hb : saveBlock b with _ | p
      · simp [saveBlocks, hb] at hs
      · obtain ⟨sb, fsb⟩ := p
        rcases hbs : saveBlocks bs with _ | q
        · simp [saveBlocks, hb, hbs] at hs
        · obtain ⟨sbs', fss⟩ := q
          simp only [saveBlocks, hb, hbs, Option.some.injEq, Prod.mk.injEq] at hs
          obtain ⟨hsbs, hfs⟩ := hs
          have hsub1 : fsb ⊆ F := fun x hx => hsub (by rw [← hfs]; exact List.mem_append_left _ hx)
          have hsub2 : fss ⊆ F := fun x hx => hsub (by rw [← hfs]; exact List.mem_append_right _ hx)
          obtain ⟨b', hb', hm⟩ := loadBlock_of_saveBlock hb hsub1 hc
          obtain ⟨bs', hbs', hms⟩ := ih hbs hsub2 hc
          refine ⟨b' :: bs', ?_, List.Forall₂.cons hm hms⟩
          rw [← hsbs]
          simp [loadBlocks, hb', hbs']

/-- A saved section reloads to a matching section. -/
theorem loadSection_of_saveSection {s : Section} {sv : SavedSection}
    {fs F : List (String × List Nat)}
    (hs : saveSection s = some (sv, fs)) (hsub : fs ⊆ F) (hc : filesConsistent F) :
    ∃ s', loadSection F sv = some s' ∧ sectionMatches s s' := by
  rcases hb : s.blocks with _ | bs
  · simp [saveSection, hb] at hs
  · rcases hbs : saveBlocks bs with _ | q
    · simp [saveSection, hb, hbs] at hs
    · obtain ⟨sbs, fs'⟩ := q
      simp only [saveSection, hb, hbs, Option.some.injEq, Prod.mk.injEq] at hs
      obtain ⟨hsv, hfs⟩ := hs
      have hsub' : fs' ⊆ F := by rw [hfs]; exact hsub
      obtain ⟨bs', hbs', hms⟩ := loadBlocks_of_saveBlocks hbs hsub' hc
      refine ⟨⟨s.role, some bs'⟩, ?_, rfl, bs, bs', hb, rfl, hms⟩
      rw [← hsv]
      simp [loadSection, hbs']

/-- Saved sections reload to sectionwise matching sections, given a
consistent global archive containing all their sibling files. -/
theorem loadSections_of_saveChat :
    ∀ {secs : List Section} {svs : List SavedSection} {fs F : List (String × List Nat)},
    saveChat secs = some (svs, fs) → fs ⊆ F → filesConsistent F →
    ∃ secs', loadSections F svs = some secs' ∧ List.Forall₂ sectionMatches secs secs' := by
  intro secs
  induction secs with
  | nil =>
      intro svs fs F hs _ _
      simp only [saveChat, Option.some.injEq, Prod.mk.injEq] at hs
      obtain ⟨hsvs, _⟩ := hs
      exact ⟨[], by rw [← hsvs]; rfl, List.Forall₂.nil⟩
  | cons s ss ih =>
      intro svs fs F hs hsub hc
      rcases hsv : saveSection s with _ | p
      · simp [saveChat, hsv] at hs
      · obtain ⟨sv, fs1⟩ := p
        rcases hss : saveChat ss with _ | q
        · simp [saveChat, hsv, hss] at hs
        · obtain ⟨svs', fss⟩ := q
          simp only [saveChat, hsv, hss, Option.some.injEq, Prod.mk.injEq] at hs
          obtain ⟨hsvs, hfs⟩ := hs
          have hsub1 : fs1 ⊆ F := fun x hx => hsub (by rw [← hfs]; exact List.mem_append_left _ hx)
          have hsub2 : fss ⊆ F := fun x hx => hsub (by rw [← hfs]; exact List.mem_append_right _ hx)
          obtain ⟨s', hs', hm⟩ := loadSection_of_saveSection hsv hsub1 hc
          obtain ⟨ss', hss', hms⟩ := ih hss hsub2 hc
          refine ⟨s' :: ss', ?_, List.Forall₂.cons hm hms⟩
          rw [← hsvs]
          simp [loadSections, hs', hss']

/-- C2 (amended): `Chat.save` followed by `Chat.load` reconstructs as
many turns as were saved, with identical role ordering and identical
block categories and content — character-identical for
text/code/reasoning blocks and bytes-for-bytes for binary blocks,
restored from the sibling archive files named `{file_id}-{filename}`
(the `data.json` content field for those being the placeholder
`"Bytes"`) — PROVIDED no two binary blocks share the same
`{file_id}-{filename}` archive name with different bytes; colliding
names overwrite each other in the archive, see the counterexample. -/
theorem c2_roundtrip :
    ∀ (secs : List Section) (svs : List SavedSection) (F : List (String × List Nat)),
    saveChat secs = some (svs, F) → filesConsistent F →
    ∃ secs', saveThenLoad secs = some secs' ∧ List.Forall₂ sectionMatches secs secs' := by
  intro secs svs F hs hc
  obtain ⟨secs', hload, hms⟩ :=
    loadSections_of_saveChat hs (fun x hx => hx) hc
  refine ⟨secs', ?_, hms⟩
  simp only [saveThenLoad, hs, hload]

/-- Closed witness for C2: a two-turn chat with mixed text and binary
blocks saves and reloads with matching roles, categories and
content. -/
theorem c2_roundtrip_witness :
    ∃ secs', saveThenLoad
        [Section.mk "user" (some [⟨"text", Content.str "hi", none, none⟩,
           ⟨"upload", Content.bytes [3, 4], some "u.bin", some "fu"⟩]),
         Section.mk "assistant" (some [⟨"code", Content.str "print(1)", none, none⟩,
           ⟨"download", Content.bytes [1, 2], some "a.bin", some "f1"⟩])] = some secs' ∧
      List.Forall₂ sectionMatches
        [Section.mk "user" (some [⟨"text", Content.str "hi", none, none⟩,
           ⟨"upload", Content.bytes [3, 4], some "u.bin", some "fu"⟩]),
         Section.mk "assistant" (some [⟨"code", Content.str "print(1)", none, none⟩,
           ⟨"download", Content.bytes [1, 2], some "a.bin", some "f1"⟩])] secs' := by
  apply c2_roundtrip _
    [SavedSection.mk "user" [⟨"text", "hi", none, none⟩, ⟨"upload", "Bytes", some "u.bin", some "fu"⟩],
     SavedSection.mk "assistant" [⟨"code", "print(1)", none, none⟩,
       ⟨"download", "Bytes", some "a.bin", some "f1"⟩]]
    [("fu-u.bin", [3, 4]), ("f1-a.bin", [1, 2])]
  · decide
  · intro p hp q hq hpq
    fin_cases hp <;> fin_cases hq <;> simp_all

/-- Closed counterexample to C2 as stated: two binary blocks sharing
`{file_id}-{filename}` overwrite each other's sibling file, so the
first block reloads with the SECOND block's bytes — the round trip is
not bytes-for-bytes for every chat. -/
theorem c2_counterexample :
    saveThenLoad [Section.mk "assistant"
        (some [⟨"download", Content.bytes [0], some "a.bin", some "f1"⟩,
          ⟨"download", Content.bytes [1], some "a.bin", some "f1"⟩])] =
      some [Section.mk "assistant"
        (some [⟨"download", Content.bytes [1], some "a.bin", some "f1"⟩,
          ⟨"download", Content.bytes [1], some "a.bin", some "f1"⟩])] ∧
    ¬ blockMatches (⟨"download", Content.bytes [0], some "a.bin", some "f1"⟩ : Block)
      (⟨"download", Content.bytes [1], some "a.bin", some "f1"⟩ : Block) := by
  constructor
  · decide
  · intro h
    cases h.2

/-! ### Frame lemmas for the `respond` state machine -/

/-- `update_and_stream` only touches the section list. -/
theorem updateLast_frame {st st' : ChatState} {category : String} {content : Content}
    {filename file_id : Option String}
    (h : st.updateLast category content filename file_id = some st') :
    st'.model = st.model ∧ st'.instructions = st.instructions ∧
    st'.temperature = st.temperature ∧ st'.tools = st.tools ∧
    st'.functions = st.functions ∧ st'.container_id = st.container_id ∧
    st'.input = st.input ∧ st'.previous_response_id = st.previous_response_id := by
  unfold ChatState.updateLast at h
  rcases hl : st.sections.getLast? with _ | sec
  · simp only [hl] at h
    exact Option.noConfusion h
  · simp only [hl] at h
    rcases hu : sec.update category content filename file_id with _ | sec'
    · simp only [hu] at h
      exact Option.noConfusion h
    · simp only [hu, Option.some.injEq] at h
      rw [← h]
      exact ⟨rfl, rfl, rfl, rfl, rfl, rfl, rfl, rfl⟩

/-- Direct last-block content mutation only touches the section
list. -/
theorem modifyLastBlockContent_frame {st st' : ChatState} {f : Content → Option Content}
    (h : st.modifyLastBlockContent f = some st') :
    st'.model = st.model ∧ st'.instructions = st.instructions ∧
    st'.temperature = st.temperature ∧ st'.tools = st.tools ∧
    st'.functions = st.functions ∧ st'.container_id = st.container_id ∧
    st'.input = st.input ∧ st'.previous_response_id = st.previous_response_id := by
  unfold ChatState.modifyLastBlockContent at h
  rcases hl : st.sections.getLast? with _ | sec
  · simp only [hl] at h
    exact Option.noConfusion h
  · simp only [hl] at h
    rcases hb : sec.blocks with _ | bs
    · simp only [hb] at h
      exact Option.noConfusion h
    · simp only [hb] at h
      rcases hlb : bs.getLast? with _ | b
      · simp only [hlb] at h
        exact Option.noConfusion h
      · simp only [hlb] at h
        rcases hf : f b.content with _ | c
        · simp only [hf] at h
          exact Option.noConfusion h
        · simp only [hf, Option.some.injEq] at h
          rw [← h]
          exact ⟨rfl, rfl, rfl, rfl, rfl, rfl, rfl, rfl⟩

/-- The `tool_calls` dict after one first-loop iteration. -/
def tcAfter (tc : List (String × String × String)) : Event → List (String × String × String)
  | .functionCallDone n a c => upsertTC tc n a c
  | _ => tc

/-- One first-loop iteration preserves every field `respond` later
reads for the second request except the continuation handle and the
token counters (and the sections it streams into). -/
theorem processEvent1_frame {env : Env} {st st' : ChatState}
    {tc tc' : List (String × String × String)} {e : Event}
    (h : (processEvent1 env st tc e).1 = some (st', tc')) :
    st'.model = st.model ∧ st'.instructions = st.instructions ∧
    st'.temperature = st.temperature ∧ st'.tools = st.tools ∧
    st'.functions = st.functions ∧ st'.container_id = st.container_id ∧
    st'.input = st.input ∧
    st'.previous_response_id = lastResponseId st.previous_response_id [e] ∧
    tc' = tcAfter tc e := by
  cases e with
  | completed id it ot =>
      simp only [processEvent1, Option.some.injEq, Prod.mk.injEq] at h
      obtain ⟨h1, h2⟩ := h
      subst h1
      exact ⟨rfl, rfl, rfl, rfl, rfl, rfl, rfl, rfl, h2.symm⟩
  | outputTextDelta d =>
      simp only [processEvent1] at h
      rcases hu : st.updateLast "text" (Content.str d) none none with _ | stm
      · simp only [hu] at h
        exact Option.noConfusion h
      · simp only [hu] at h
        rcases hm : stm.modifyLastBlockContent (fun c =>
            match c with
            | .str s => some (.str (env.sandboxRewrite s))
            | .bytes _ => none) with _ | stm'
        · simp only [hm, Option.map_none'] at h
          exact Option.noConfusion h
        · simp only [hm, Option.map_some', Option.some.injEq, Prod.mk.injEq] at h
          obtain ⟨h1, h2⟩ := h
          subst h1
          obtain ⟨a1, a2, a3, a4, a5, a6, a7, a8⟩ := updateLast_frame hu
          obtain ⟨b1, b2, b3, b4, b5, b6, b7, b8⟩ := modifyLastBlockContent_frame hm
          exact ⟨b1.trans a1, b2.trans a2, b3.trans a3, b4.trans a4, b5.trans a5,
            b6.trans a6, b7.trans a7, b8.trans a8, h2.symm⟩
  | codeDelta d =>
      simp only [processEvent1] at h
      rcases hu : st.updateLast "code" (Content.str d) none none with _ | stm
      · simp only [hu, Option.map_none'] at h
        exact Option.noConfusion h
      · simp only [hu, Option.map_some', Option.some.injEq, Prod.mk.injEq] at h
        obtain ⟨h1, h2⟩ := h
        subst h1
        obtain ⟨a1, a2, a3, a4, a5, a6, a7, a8⟩ := updateLast_frame hu
        exact ⟨a1, a2, a3, a4, a5, a6, a7, a8, h2.symm⟩
  | functionCallDone name arguments call_id =>
      simp only [processEvent1, Option.some.injEq, Prod.mk.injEq] at h
      obtain ⟨h1, h2⟩ := h
      subst h1
      exact ⟨rfl, rfl, rfl, rfl, rfl, rfl, rfl, rfl, h2.symm⟩
  | reasoningDelta d =>
      simp only [processEvent1] at h
      rcases hu : st.updateLast "reasoning" (Content.str d) none none with _ | stm
      · simp only [hu, Option.map_none'] at h
        exact Option.noConfusion h
      · simp only [hu, Option.map_some', Option.some.injEq, Prod.mk.injEq] at h
        obtain ⟨h1, h2⟩ := h
        subst h1
        obtain ⟨a1, a2, a3, a4, a5, a6, a7, a8⟩ := updateLast_frame hu
        exact ⟨a1, a2, a3, a4, a5, a6, a7, a8, h2.symm⟩
  | reasoningDone =>
      simp only [processEvent1] at h
      rcases hm : st.modifyLastBlockContent (fun c =>
          match c with
          | .str s => some (.str (s ++ "\n\n"))
          | .bytes _ => none) with _ | stm
      · simp only [hm, Option.map_none'] at h
        exact Option.noConfusion h
      · simp only [hm, Option.map_some', Option.some.injEq, Prod.mk.injEq] at h
        obtain ⟨h1, h2⟩ := h
        subst h1
        obtain ⟨a1, a2, a3, a4, a5, a6, a7, a8⟩ := modifyLastBlockContent_frame hm
        exact ⟨a1, a2, a3, a4, a5, a6, a7, a8, h2.symm⟩
  | genImage decoded item_id output_format =>
      simp only [processEvent1] at h
      rcases hu : st.updateLast "generated_image" (Content.bytes decoded)
          (some (item_id ++ "." ++ output_format)) (some item_id) with _ | stm
      · simp only [hu, Option.map_none'] at h
        exact Option.noConfusion h
      · simp only [hu, Option.map_some', Option.some.injEq, Prod.mk.injEq] at h
        obtain ⟨h1, h2⟩ := h
        subst h1
        obtain ⟨a1, a2, a3, a4, a5, a6, a7, a8⟩ := updateLast_frame hu
        exact ⟨a1, a2, a3, a4, a5, a6, a7, a8, h2.symm⟩
  | annotationAdded annType file_id filename =>
      simp only [processEvent1] at h
      by_cases h1 : annType = "file_citation"
      · rw [if_pos h1] at h
        simp only [Option.some.injEq, Prod.mk.injEq] at h
        obtain ⟨h1, h2⟩ := h
        subst h1
        exact ⟨rfl, rfl, rfl, rfl, rfl, rfl, rfl, rfl, h2.symm⟩
      · rw [if_neg h1] at h
        by_cases h2 : annType = "container_file_citation"
        · rw [if_pos h2] at h
          by_cases h3 : strContains filename file_id
          · rw [if_pos h3] at h
            by_cases h4 : pathSuffix filename ∈ ([".png", ".jpg", ".jpeg"] : List String)
            · rw [if_pos h4] at h
              rcases hu : st.updateLast "image"
                  (Content.bytes (env.fileContent file_id st.container_id))
                  (some filename) (some file_id) with _ | stm
              · simp only [hu, Option.map_none'] at h
                exact Option.noConfusion h
              · simp only [hu, Option.map_some', Option.some.injEq, Prod.mk.injEq] at h
                obtain ⟨h1, h2⟩ := h
                subst h1
                obtain ⟨a1, a2, a3, a4, a5, a6, a7, a8⟩ := updateLast_frame hu
                exact ⟨a1, a2, a3, a4, a5, a6, a7, a8, h2.symm⟩
            · rw [if_neg h4] at h
              simp only [Option.some.injEq, Prod.mk.injEq] at h
              obtain ⟨h1, h2⟩ := h
              subst h1
              exact ⟨rfl, rfl, rfl, rfl, rfl, rfl, rfl, rfl, h2.symm⟩
          · rw [if_neg h3] at h
            rcases hu : st.updateLast "download"
                (Content.bytes (env.fileContent file_id st.container_id))
                (some filename) (some file_id) with _ | stm
            · simp only [hu, Option.map_none'] at h
              exact Option.noConfusion h
            · simp only [hu, Option.map_some', Option.some.injEq, Prod.mk.injEq] at h
              obtain ⟨h1, h2⟩ := h
              subst h1
              obtain ⟨a1, a2, a3, a4, a5, a6, a7, a8⟩ := updateLast_frame hu
              exact ⟨a1, a2, a3, a4, a5, a6, a7, a8, h2.symm⟩
        · rw [if_neg h2] at h
          simp only [Option.some.injEq, Prod.mk.injEq] at h
          obtain ⟨h1, h2⟩ := h
          subst h1
          exact ⟨rfl, rfl, rfl, rfl, rfl, rfl, rfl, rfl, h2.symm⟩
  | other =>
      simp only [processEvent1, Option.some.injEq, Prod.mk.injEq] at h
      obtain ⟨h1, h2⟩ := h
      subst h1
      exact ⟨rfl, rfl, rfl, rfl, rfl, rfl, rfl, rfl, h2.symm⟩

/-- The only external calls the first event loop body makes are
container-file retrievals. -/
theorem processEvent1_calls {env : Env} {st : ChatState}
    {tc : List (String × String × String)} {e : Event} :
    ∀ c ∈ (processEvent1 env st tc e).2, ∃ fid cid, c = Call.retrieveFile fid cid := by
  intro c hc
  cases e with
  | completed id it ot => simp [processEvent1] at hc
  | outputTextDelta d =>
      rcases hu : st.updateLast "text" (Content.str d) none none with _ | stm <;>
        simp [processEvent1, hu] at hc
  | codeDelta d => simp [processEvent1] at hc
  | functionCallDone name arguments call_id => simp [processEvent1] at hc
  | reasoningDelta d => simp [processEvent1] at hc
  | reasoningDone => simp [processEvent1] at hc
  | genImage decoded item_id output_format => simp [processEvent1] at hc
  | annotationAdded annType file_id filename =>
      by_cases h1 : annType = "file_citation"
      · simp [processEvent1, h1] at hc
      · by_cases h2 : annType = "container_file_citation"
        · by_cases h3 : strContains filename file_id
          · by_cases h4 : pathSuffix filename ∈ ([".png", ".jpg", ".jpeg"] : List String)
            · simp [processEvent1, h1, h2, h3, h4] at hc
              exact ⟨file_id, st.container_id, hc⟩
            · simp [processEvent1, h1, h2, h3, h4] at hc
          · simp [processEvent1, h1, h2, h3] at hc
            exact ⟨file_id, st.container_id, hc⟩
        · simp [processEvent1, h1, h2] at hc
  | other => simp [processEvent1] at hc

/-- Folding `lastResponseId` one event at a time. -/
theorem lastResponseId_cons (init : Option String) (e : Event) (es : List Event) :
    lastResponseId init (e :: es) = lastResponseId (lastResponseId init [e]) es := by
  cases e <;> rfl

/-- The first event loop preserves the request-shape fields and the
pending-input buffer, and leaves the continuation handle at the id of
the stream's last `response.completed` event. -/
theorem runLoop1_state {env : Env} :
    ∀ {es : List Event} {st : ChatState} {tc : List (String × String × String)}
      {st' : ChatState} {tc' : List (String × String × String)},
    (runLoop1 env st tc es).1 = some (st', tc') →
    st'.model = st.model ∧ st'.instructions = st.instructions ∧
    st'.temperature = st.temperature ∧ st'.tools = st.tools ∧
    st'.functions = st.functions ∧ st'.container_id = st.container_id ∧
    st'.input = st.input ∧
    st'.previous_response_id = lastResponseId st.previous_response_id es := by
  intro es
  induction es with
  | nil =>
      intro st tc st' tc' h
      simp only [runLoop1, Option.some.injEq, Prod.mk.injEq] at h
      rw [← h.1]
      exact ⟨rfl, rfl, rfl, rfl, rfl, rfl, rfl, rfl⟩
  | cons e es ih =>
      intro st tc st' tc' h
      rcases hp : processEvent1 env st tc e with ⟨r, cs⟩
      rcases r with _ | p
      · simp only [runLoop1, hp] at h
        exact Option.noConfusion h
      · obtain ⟨stm, tcm⟩ := p
        rcases hrest : runLoop1 env stm tcm es with ⟨r', cs'⟩
        simp only [runLoop1, hp, hrest] at h
        have hm : (processEvent1 env st tc e).1 = some (stm, tcm) := by rw [hp]
        obtain ⟨a1, a2, a3, a4, a5, a6, a7, a8, _⟩ := processEvent1_frame hm
        have hr : (runLoop1 env stm tcm es).1 = some (st', tc') := by rw [hrest]; exact h
        obtain ⟨b1, b2, b3, b4, b5, b6, b7, b8⟩ := ih hr
        refine ⟨b1.trans a1, b2.trans a2, b3.trans a3, b4.trans a4, b5.trans a5,
          b6.trans a6, b7.trans a7, ?_⟩
        rw [lastResponseId_cons, ← a8]
        exact b8

/-- The only external calls in the first event loop's trace are
container-file retrievals. -/
theorem runLoop1_calls {env : Env} :
    ∀ {es : List Event} {st : ChatState} {tc : List (String × String × String)},
    ∀ c ∈ (runLoop1 env st tc es).2, ∃ fid cid, c = Call.retrieveFile fid cid := by
  intro es
  induction es with
  | nil =>
      intro st tc c hc
      simp [runLoop1] at hc
  | cons e es ih =>
      intro st tc c hc
      rcases hp : processEvent1 env st tc e with ⟨r, cs⟩
      have hcs : ∀ c ∈ cs, ∃ fid cid, c = Call.retrieveFile fid cid := by
        intro c hc
        have : c ∈ (processEvent1 env st tc e).2 := by rw [hp]; exact hc
        exact processEvent1_calls c this
      rcases r with _ | p
      · simp only [runLoop1, hp] at hc
        exact hcs c hc
      · obtain ⟨stm, tcm⟩ := p
        rcases hrest : runLoop1 env stm tcm es with ⟨r', cs'⟩
        simp only [runLoop1, hp, hrest] at hc
        rcases List.mem_append.mp hc with h | h
        · exact hcs c h
        · have : c ∈ (runLoop1 env stm tcm es).2 := by rw [hrest]; exact h
          exact ih c this

/-- The upserted key is present after an upsert. -/
theorem upsert_mem_self (tc : List (String × String × String)) (n a c : String) :
    ∃ x ∈ upsertTC tc n a c, x.1 = n := by
  unfold upsertTC
  by_cases h : tc.any (fun t => t.1 = n)
  · rw [if_pos h]
    obtain ⟨x, hx, hxn⟩ := List.any_eq_true.mp h
    have hxn' : x.1 = n := by simpa using hxn
    exact ⟨(n, a, c), List.mem_map.mpr ⟨x, hx, by simp [hxn']⟩, rfl⟩
  · rw [if_neg h]
    exact ⟨(n, a, c), List.mem_append_right _ (by simp), rfl⟩

/-- Existing keys survive an upsert. -/
theorem upsert_mem_keep {tc : List (String × String × String)}
    {x : String × String × String} (hx : x ∈ tc) (n a c : String) :
    ∃ y ∈ upsertTC tc n a c, y.1 = x.1 := by
  unfold upsertTC
  by_cases h : tc.any (fun t => t.1 = n)
  · rw [if_pos h]
    refine ⟨if x.1 = n then (n, a, c) else x, List.mem_map_of_mem _ hx, ?_⟩
    by_cases hxn : x.1 = n
    · rw [if_pos hxn, hxn]
    · rw [if_neg hxn]
  · rw [if_neg h]
    exact ⟨x, List.mem_append_left _ hx, rfl⟩

/-- Every key after an upsert is the upserted name or an existing
key. -/
theorem upsert_mem_src {tc : List (String × String × String)}
    {y : String × String × String} {n a c : String}
    (hy : y ∈ upsertTC tc n a c) : y.1 = n ∨ ∃ x ∈ tc, x.1 = y.1 := by
  unfold upsertTC at hy
  by_cases h : tc.any (fun t => t.1 = n)
  · rw [if_pos h] at hy
    obtain ⟨x, hx, hfx⟩ := List.mem_map.mp hy
    by_cases hxn : x.1 = n
    · rw [if_pos hxn] at hfx
      left
      rw [← hfx]
    · rw [if_neg hxn] at hfx
      right
      exact ⟨x, hx, by rw [hfx]⟩
  · rw [if_neg h] at hy
    rcases List.mem_append.mp hy with hm | hm
    · exact Or.inr ⟨y, hm, rfl⟩
    · left
      simp at hm
      rw [hm]

/-- Every function-call name of the consumed stream (and every
pre-existing key) is a key of the final `tool_calls` dict. -/
theorem runLoop1_keys {env : Env} :
    ∀ {es : List Event} {st : ChatState} {tc : List (String × String × String)}
      {st' : ChatState} {tc' : List (String × String × String)},
    (runLoop1 env st tc es).1 = some (st', tc') →
    ∀ n, ((∃ x ∈ tc, x.1 = n) ∨ n ∈ fcNames es) → ∃ x ∈ tc', x.1 = n := by
  intro es
  induction es with
  | nil =>
      intro st tc st' tc' h n hn
      simp only [runLoop1, Option.some.injEq, Prod.mk.injEq] at h
      rcases hn with hn | hn
      · rw [← h.2]; exact hn
      · simp [fcNames] at hn
  | cons e es ih =>
      intro st tc st' tc' h n hn
      rcases hp : processEvent1 env st tc e with ⟨r, cs⟩
      rcases r with _ | p
      · simp only [runLoop1, hp] at h
        exact Option.noConfusion h
      · obtain ⟨stm, tcm⟩ := p
        rcases hrest : runLoop1 env stm tcm es with ⟨r', cs'⟩
        simp only [runLoop1, hp, hrest] at h
        have hm : (processEvent1 env st tc e).1 = some (stm, tcm) := by rw [hp]
        have htc : tcm = tcAfter tc e := (processEvent1_frame hm).2.2.2.2.2.2.2.2
        have hr : (runLoop1 env stm tcm es).1 = some (st', tc') := by rw [hrest]; exact h
        apply ih hr
        cases e with
        | functionCallDone fn fa fc =>
            rcases hn with hn | hn
            · obtain ⟨x, hx, hxn⟩ := hn
              left
              rw [htc]
              obtain ⟨y, hy, hyn⟩ := upsert_mem_keep hx fn fa fc
              exact ⟨y, hy, by rw [hyn, hxn]⟩
            · rcases (by simpa [fcNames] using hn : n = fn ∨ n ∈ fcNames es) with hn | hn
              · left
                rw [htc, hn]
                exact upsert_mem_self tc fn fa fc
              · exact Or.inr hn
        | completed id it ot =>
            rcases hn with hn | hn
            · exact Or.inl (htc ▸ hn)
            · exact Or.inr (by simpa [fcNames] using hn)
        | outputTextDelta d =>
            rcases hn with hn | hn
            · exact Or.inl (htc ▸ hn)
            · exact Or.inr (by simpa [fcNames] using hn)
        | codeDelta d =>
            rcases hn with hn | hn
            · exact Or.inl (htc ▸ hn)
            · exact Or.inr (by simpa [fcNames] using hn)
        | reasoningDelta d =>
            rcases hn with hn | hn
            · exact Or.inl (htc ▸ hn)
            · exact Or.inr (by simpa [fcNames] using hn)
        | reasoningDone =>
            rcases hn with hn | hn
            · exact Or.inl (htc ▸ hn)
            · exact Or.inr (by simpa [fcNames] using hn)
        | genImage decoded item_id output_format =>
            rcases hn with hn | hn
            · exact Or.inl (htc ▸ hn)
            · exact Or.inr (by simpa [fcNames] using hn)
        | annotationAdded annType file_id filename =>
            rcases hn with hn | hn
            · exact Or.inl (htc ▸ hn)
            · exact Or.inr (by simpa [fcNames] using hn)
        | other =>
            rcases hn with hn | hn
            · exact Or.inl (htc ▸ hn)
            · exact Or.inr (by simpa [fcNames] using hn)

/-- Conversely, every key of the final `tool_calls` dict is a
pre-existing key or a function-call name of the consumed stream. -/
theorem runLoop1_keys_src {env : Env} :
    ∀ {es : List Event} {st : ChatState} {tc : List (String × String × String)}
      {st' : ChatState} {tc' : List (String × String × String)},
    (runLoop1 env st tc es).1 = some (st', tc') →
    ∀ y ∈ tc', (∃ x ∈ tc, x.1 = y.1) ∨ y.1 ∈ fcNames es := by
  intro es
  induction es with
  | nil =>
      intro st tc st' tc' h y hy
      simp only [runLoop1, Option.some.injEq, Prod.mk.injEq] at h
      rw [← h.2] at hy
      exact Or.inl ⟨y, hy, rfl⟩
  | cons e es ih =>
      intro st tc st' tc' h y hy
      rcases hp : processEvent1 env st tc e with ⟨r, cs⟩
      rcases r with _ | p
      · simp only [runLoop1, hp] at h
        exact Option.noConfusion h
      · obtain ⟨stm, tcm⟩ := p
        rcases hrest : runLoop1 env stm tcm es with ⟨r', cs'⟩
        simp only [runLoop1, hp, hrest] at h
        have hm : (processEvent1 env st tc e).1 = some (stm, tcm) := by rw [hp]
        have htc : tcm = tcAfter tc e := (processEvent1_frame hm).2.2.2.2.2.2.2.2
        have hr : (runLoop1 env stm tcm es).1 = some (st', tc') := by rw [hrest]; exact h
        rcases ih hr y hy with hsrc | hsrc
        · obtain ⟨x, hx, hxy⟩ := hsrc
          rw [htc] at hx
          cases e with
          | functionCallDone fn fa fc =>
              rcases upsert_mem_src hx with hxn | ⟨z, hz, hzx⟩
              · right
                simp [fcNames, ← hxy, hxn]
              · exact Or.inl ⟨z, hz, by rw [hzx, hxy]⟩
          | completed id it ot => exact Or.inl ⟨x, hx, hxy⟩
          | outputTextDelta d => exact Or.inl ⟨x, hx, hxy⟩
          | codeDelta d => exact Or.inl ⟨x, hx, hxy⟩
          | reasoningDelta d => exact Or.inl ⟨x, hx, hxy⟩
          | reasoningDone => exact Or.inl ⟨x, hx, hxy⟩
          | genImage decoded item_id output_format => exact Or.inl ⟨x, hx, hxy⟩
          | annotationAdded annType file_id filename => exact Or.inl ⟨x, hx, hxy⟩
          | other => exact Or.inl ⟨x, hx, hxy⟩
        · right
          cases e <;> simp [fcNames, hsrc]

/-- The tool-resolution loop only appends `function_call_output`
entries to the pending-input buffer; everything else is untouched. -/
theorem runTools_state {fns : Option (List CustomFunction)} :
    ∀ {tc : List (String × String × String)} {st st' : ChatState},
    (runTools fns st tc).1 = some st' →
    st'.model = st.model ∧ st'.instructions = st.instructions ∧
    st'.temperature = st.temperature ∧ st'.tools = st.tools ∧
    st'.functions = st.functions ∧ st'.container_id = st.container_id ∧
    st'.sections = st.sections ∧ st'.previous_response_id = st.previous_response_id ∧
    ∃ outs, st'.input = st.input ++ outs ∧
      ∀ i ∈ outs, ∃ cid o, i = InputItem.functionCallOutput cid o := by
  intro tc
  induction tc with
  | nil =>
      intro st st' h
      simp only [runTools, Option.some.injEq] at h
      rw [← h]
      exact ⟨rfl, rfl, rfl, rfl, rfl, rfl, rfl, rfl, [], by simp, by simp⟩
  | cons entry rest ih =>
      obtain ⟨name, arguments, call_id⟩ := entry
      intro st st' h
      rcases fns with _ | fs
      · simp only [runTools] at h
        exact Option.noConfusion h
      · rcases hf : fs.filter (fun f => f.name = name) with _ | ⟨f, fs'⟩
        · simp only [runTools, hf] at h
          exact Option.noConfusion h
        · rcases hh : f.handler arguments with _ | r
          · simp only [runTools, hf, hh] at h
            exact Option.noConfusion h
          · rcases hrec : runTools (some fs)
                { st with input := st.input ++ [InputItem.functionCallOutput call_id r] }
                rest with ⟨res, cs⟩
            simp only [runTools, hf, hh, hrec] at h
            have hr : (runTools (some fs)
                { st with input := st.input ++ [InputItem.functionCallOutput call_id r] }
                rest).1 = some st' := by rw [hrec]; exact h
            obtain ⟨a1, a2, a3, a4, a5, a6, a7, a8, outs, ho, hfco⟩ := ih hr
            refine ⟨a1, a2, a3, a4, a5, a6, a7, a8,
              InputItem.functionCallOutput call_id r :: outs, ?_, ?_⟩
            · rw [ho]
              simp
            · intro i hi
              rcases List.mem_cons.mp hi with hi | hi
              · exact ⟨call_id, r, hi⟩
              · exact hfco i hi

/-- Every call in the tool-resolution loop's trace is a handler
invocation whose name is a key of the recorded tool calls. -/
theorem runTools_calls {fns : Option (List CustomFunction)} :
    ∀ {tc : List (String × String × String)} {st : ChatState},
    ∀ c ∈ (runTools fns st tc).2,
      ∃ n a, c = Call.invokeHandler n a ∧ ∃ x ∈ tc, x.1 = n := by
  intro tc
  induction tc with
  | nil =>
      intro st c hc
      simp [runTools] at hc
  | cons entry rest ih =>
      obtain ⟨name, arguments, call_id⟩ := entry
      intro st c hc
      rcases fns with _ | fs
      · simp [runTools] at hc
      · rcases hf : fs.filter (fun f => f.name = name) with _ | ⟨f, fs'⟩
        · simp [runTools, hf] at hc
        · rcases hh : f.handler arguments with _ | r
          · simp only [runTools, hf, hh] at hc
            rcases List.mem_singleton.mp hc with rfl
            exact ⟨name, arguments, rfl, ⟨(name, arguments, call_id), by simp, rfl⟩⟩
          · rcases hrec : runTools (some fs)
                { st with input := st.input ++ [InputItem.functionCallOutput call_id r] }
                rest with ⟨res, cs⟩
            simp only [runTools, hf, hh, hrec] at hc
            rcases List.mem_cons.mp hc with hc | hc
            · exact ⟨name, arguments, hc, ⟨(name, arguments, call_id), by simp, rfl⟩⟩
            · have : c ∈ (runTools (some fs)
                  { st with input := st.input ++ [InputItem.functionCallOutput call_id r] }
                  rest).2 := by rw [hrec]; exact hc
              obtain ⟨n, a, hca, x, hx, hxn⟩ := ih c this
              exact ⟨n, a, hca, x, List.mem_cons_of_mem _ hx, hxn⟩

/-- Resolving a recorded tool call whose name is absent from the
registry raises before any handler invocation under that name. -/
theorem runTools_fail {fns : Option (List CustomFunction)} {n : String}
    (hn : n ∉ functionNames fns) :
    ∀ {tc : List (String × String × String)} (st : ChatState),
    (∃ x ∈ tc, x.1 = n) →
    (runTools fns st tc).1 = none ∧
      ∀ a, Call.invokeHandler n a ∉ (runTools fns st tc).2 := by
  intro tc
  induction tc with
  | nil =>
      intro st hex
      simp at hex
  | cons entry rest ih =>
      obtain ⟨name, arguments, call_id⟩ := entry
      intro st hex
      rcases fns with _ | fs
      · exact ⟨rfl, by intro a ha; simp [runTools] at ha⟩
      · by_cases hname : name = n
        · have hfilter : fs.filter (fun f => f.name = name) = [] := by
            rw [List.filter_eq_nil_iff]
            intro f hf
            simp only [decide_eq_true_eq]
            intro hfn
            apply hn
            show n ∈ List.map (fun f => f.name) fs
            refine List.mem_map.mpr ⟨f, hf, ?_⟩
            show f.name = n
            rw [hfn]
            exact hname
          refine ⟨?_, ?_⟩
          · simp [runTools, hfilter]
          · intro a ha
            simp [runTools, hfilter] at ha
        · have hex' : ∃ x ∈ rest, x.1 = n := by
            obtain ⟨x, hx, hxn⟩ := hex
            rcases List.mem_cons.mp hx with rfl | hx
            · exact absurd hxn hname
            · exact ⟨x, hx, hxn⟩
          rcases hf : fs.filter (fun f => f.name = name) with _ | ⟨f, fs'⟩
          · refine ⟨by simp [runTools, hf], ?_⟩
            intro a ha
            simp [runTools, hf] at ha
          · rcases hh : f.handler arguments with _ | r
            · refine ⟨by simp [runTools, hf, hh], ?_⟩
              intro a ha
              simp only [runTools, hf, hh, List.mem_singleton] at ha
              exact hname (by injection ha with h1 h2; exact h1.symm)
            · rcases hrec : runTools (some fs)
                  { st with input := st.input ++ [InputItem.functionCallOutput call_id r] }
                  rest with ⟨res, cs⟩
              obtain ⟨ih1, ih2⟩ := ih
                { st with input := st.input ++ [InputItem.functionCallOutput call_id r] } hex'
              rw [hrec] at ih1 ih2
              refine ⟨by simp [runTools, hf, hh, hrec, ih1], ?_⟩
              intro a ha
              simp only [runTools, hf, hh, hrec, List.mem_cons] at ha
              rcases ha with ha | ha
              · exact hname (by injection ha with h1 h2; exact h1.symm)
              · exact ih2 a ha

/-- One second-loop iteration touches only the section list and the
continuation handle. -/
theorem processEvent2_frame {st st' : ChatState} {e : Event}
    (h : processEvent2 st e = some st') :
    st'.input = st.input ∧ st'.model = st.model ∧ st'.instructions = st.instructions ∧
    st'.temperature = st.temperature ∧ st'.tools = st.tools ∧
    st'.functions = st.functions ∧ st'.container_id = st.container_id := by
  cases e with
  | completed id it ot =>
      simp only [processEvent2, Option.some.injEq] at h
      rw [← h]
      exact ⟨rfl, rfl, rfl, rfl, rfl, rfl, rfl⟩
  | outputTextDelta d =>
      simp only [processEvent2] at h
      obtain ⟨a1, a2, a3, a4, a5, a6, a7, _⟩ := updateLast_frame h
      exact ⟨a7, a1, a2, a3, a4, a5, a6⟩
  | codeDelta d =>
      simp only [processEvent2, Option.some.injEq] at h
      rw [← h]
      exact ⟨rfl, rfl, rfl, rfl, rfl, rfl, rfl⟩
  | functionCallDone name arguments call_id =>
      simp only [processEvent2, Option.some.injEq] at h
      rw [← h]
      exact ⟨rfl, rfl, rfl, rfl, rfl, rfl, rfl⟩
  | reasoningDelta d =>
      simp only [processEvent2, Option.some.injEq] at h
      rw [← h]
      exact ⟨rfl, rfl, rfl, rfl, rfl, rfl, rfl⟩
  | reasoningDone =>
      simp only [processEvent2, Option.some.injEq] at h
      rw [← h]
      exact ⟨rfl, rfl, rfl, rfl, rfl, rfl, rfl⟩
  | genImage decoded item_id output_format =>
      simp only [processEvent2, Option.some.injEq] at h
      rw [← h]
      exact ⟨rfl, rfl, rfl, rfl, rfl, rfl, rfl⟩
  | annotationAdded annType file_id filename =>
      simp only [processEvent2, Option.some.injEq] at h
      rw [← h]
      exact ⟨rfl, rfl, rfl, rfl, rfl, rfl, rfl⟩
  | other =>
      simp only [processEvent2, Option.some.injEq] at h
      rw [← h]
      exact ⟨rfl, rfl, rfl, rfl, rfl, rfl, rfl⟩

/-- The second event loop preserves the pending-input buffer (and the
request-shape fields). -/
theorem runLoop2_state :
    ∀ {es : List Event} {st st' : ChatState}, runLoop2 st es = some st' →
    st'.input = st.input ∧ st'.model = st.model ∧ st'.instructions = st.instructions ∧
    st'.temperature = st.temperature ∧ st'.tools = st.tools ∧
    st'.functions = st.functions ∧ st'.container_id = st.container_id := by
  intro es
  induction es with
  | nil =>
      intro st st' h
      simp only [runLoop2, Option.some.injEq] at h
      rw [← h]
      exact ⟨rfl, rfl, rfl, rfl, rfl, rfl, rfl⟩
  | cons e es ih =>
      intro st st' h
      rcases hp : processEvent2 st e with _ | stm
      · simp only [runLoop2, hp] at h
        exact Option.noConfusion h
      · simp only [runLoop2, hp] at h
        obtain ⟨a1, a2, a3, a4, a5, a6, a7⟩ := processEvent2_frame hp
        obtain ⟨b1, b2, b3, b4, b5, b6, b7⟩ := ih h
        exact ⟨b1.trans a1, b2.trans a2, b3.trans a3, b4.trans a4, b5.trans a5,
          b6.trans a6, b7.trans a7⟩

/-- `createRequests` distributes over trace concatenation. -/
theorem createRequests_append (a b : List Call) :
    createRequests (a ++ b) = createRequests a ++ createRequests b := by
  induction a with
  | nil => rfl
  | cons c cs ih => cases c <;> simp [createRequests, ih]

/-- A trace of container-file retrievals contains no generation
call. -/
theorem createRequests_of_retrieves {cs : List Call}
    (h : ∀ c ∈ cs, ∃ fid cid, c = Call.retrieveFile fid cid) : createRequests cs = [] := by
  induction cs with
  | nil => rfl
  | cons c cs ih =>
      obtain ⟨fid, cid, rfl⟩ := h _ (List.mem_cons_self c cs)
      exact (by simp [createRequests] : createRequests (Call.retrieveFile fid cid :: cs) =
        createRequests cs).trans (ih (fun c hc => h c (List.mem_cons_of_mem _ hc)))

/-- A trace of handler invocations contains no generation call. -/
theorem createRequests_of_invokes {cs : List Call}
    (h : ∀ c ∈ cs, ∃ n a, c = Call.invokeHandler n a) : createRequests cs = [] := by
  induction cs with
  | nil => rfl
  | cons c cs ih =>
      obtain ⟨n, a, rfl⟩ := h _ (List.mem_cons_self c cs)
      exact (by simp [createRequests] : createRequests (Call.invokeHandler n a :: cs) =
        createRequests cs).trans (ih (fun c hc => h c (List.mem_cons_of_mem _ hc)))

/-- C3: one `respond` invocation issues at most two streaming
generation calls, and every tool-handler invocation in its trace bears
a function-call name from the FIRST stream — the second loop never
invokes a handler and never issues a further call, even when the
second stream contains `function_call` output-item-done events. -/
theorem c3_at_most_two_calls :
    ∀ (st : ChatState) (env : Env) (prompt : String),
    (createRequests (respond st env prompt).2).length ≤ 2 ∧
    (∀ name arguments, Call.invokeHandler name arguments ∈ (respond st env prompt).2 →
      name ∈ fcNames env.stream1) := by
  intro st env prompt
  simp only [respond]
  split
  next cs1 heq =>
    have hcs1 : ∀ c ∈ cs1, ∃ fid cid, c = Call.retrieveFile fid cid := by
      intro c hc
      exact runLoop1_calls c (by rw [heq]; exact hc)
    constructor
    · simp [createRequests, createRequests_of_retrieves hcs1]
    · intro name arguments hmem
      rcases List.mem_cons.mp hmem with hmem | hmem
      · cases hmem
      · obtain ⟨fid, cid, h⟩ := hcs1 _ hmem
        cases h
  next st3 tc cs1 heq =>
    have hcs1 : ∀ c ∈ cs1, ∃ fid cid, c = Call.retrieveFile fid cid := by
      intro c hc
      exact runLoop1_calls c (by rw [heq]; exact hc)
    have hkeys : ∀ y ∈ tc, (∃ x ∈ ([] : List (String × String × String)), x.1 = y.1) ∨
        y.1 ∈ fcNames env.stream1 := by
      intro y hy
      exact runLoop1_keys_src (by rw [heq]) y hy
    split
    · constructor
      · simp [createRequests, createRequests_of_retrieves hcs1]
      · intro name arguments hmem
        rcases List.mem_cons.mp hmem with hmem | hmem
        · cases hmem
        · obtain ⟨fid, cid, h⟩ := hcs1 _ hmem
          cases h
    · split
      next cs2 heq2 =>
        have hcs2 : ∀ c ∈ cs2, ∃ n a, c = Call.invokeHandler n a := by
          intro c hc
          obtain ⟨n, a, hca, _⟩ := runTools_calls c (by rw [heq2]; exact hc)
          exact ⟨n, a, hca⟩
        constructor
        · simp [createRequests, createRequests_append,
            createRequests_of_retrieves hcs1, createRequests_of_invokes hcs2]
        · intro name arguments hmem
          rcases List.mem_cons.mp hmem with hmem | hmem
          · cases hmem
          · rcases List.mem_append.mp hmem with hmem | hmem
            · obtain ⟨fid, cid, h⟩ := hcs1 _ hmem
              cases h
            · obtain ⟨n, a, hca, x, hx, hxn⟩ := runTools_calls _ (by rw [heq2]; exact hmem)
              cases hca
              rcases hkeys x hx with ⟨_, hfalse, _⟩ | hfc
              · cases hfalse
              · rw [← hxn]
                exact hfc
      next st4 cs2 heq2 =>
        have hcs2 : ∀ c ∈ cs2, ∃ n a, c = Call.invokeHandler n a := by
          intro c hc
          obtain ⟨n, a, hca, _⟩ := runTools_calls c (by rw [heq2]; exact hc)
          exact ⟨n, a, hca⟩
        have hinv : ∀ name arguments,
            Call.invokeHandler name arguments ∈ cs2 → name ∈ fcNames env.stream1 := by
          intro name arguments hmem
          obtain ⟨n, a, hca, x, hx, hxn⟩ := runTools_calls _ (by rw [heq2]; exact hmem)
          cases hca
          rcases hkeys x hx with ⟨_, hfalse, _⟩ | hfc
          · cases hfalse
          · rw [← hxn]
            exact hfc
        split <;>
          (constructor
           · simp [createRequests, createRequests_append,
               createRequests_of_retrieves hcs1, createRequests_of_invokes hcs2]
           · intro name arguments hmem
             rcases List.mem_cons.mp hmem with hmem | hmem
             · cases hmem
             · rcases List.mem_append.mp hmem with hmem | hmem
               · rcases List.mem_append.mp hmem with hmem | hmem
                 · obtain ⟨fid, cid, h⟩ := hcs1 _ hmem
                   cases h
                 · exact hinv _ _ hmem
               · rcases List.mem_singleton.mp hmem with h
                 cases h)

/-- C4: whenever `respond` returns normally the pending-input buffer
ends empty, and the issued requests partition the queued entries: the
first request carries exactly the prior buffer plus the user prompt,
and the second (when tool calls occurred) carries exactly
`function_call_output` entries — every queued entry rides exactly one
request. -/
theorem c4_buffer_flush :
    ∀ (st : ChatState) (env : Env) (prompt : String) (st' : ChatState),
    (respond st env prompt).1 = some st' →
    st'.input = [] ∧
    ((createRequests (respond st env prompt).2).map (fun r => r.input) =
       [st.input ++ [InputItem.message "user" prompt]] ∨
     ∃ outs, (createRequests (respond st env prompt).2).map (fun r => r.input) =
       [st.input ++ [InputItem.message "user" prompt], outs] ∧
       ∀ i ∈ outs, ∃ cid o, i = InputItem.functionCallOutput cid o) := by
  intro st env prompt st' h
  simp only [respond] at h ⊢
  split at h
  next cs1 heq =>
    exact Option.noConfusion h
  next st3 tc cs1 heq =>
    have hl1 := runLoop1_state (by rw [heq] :
      (runLoop1 env { st with
          input := [],
          sections := st.sections ++ [{ role := "assistant", blocks := none }] }
        [] env.stream1).1 = some (st3, tc))
    have hcs1 : ∀ c ∈ cs1, ∃ fid cid, c = Call.retrieveFile fid cid := by
      intro c hc
      exact runLoop1_calls c (by rw [heq]; exact hc)
    split at h
    · rename_i htc
      have htc' : tc = [] := by simpa using htc
      injection h with h
      subst h
      constructor
      · exact hl1.2.2.2.2.2.2.1
      · left
        simp [htc', createRequests, createRequests_of_retrieves hcs1, mkRequest]
    · rename_i htc
      have htc' : ¬ tc = [] := by simpa using htc
      split at h
      next cs2 heq2 =>
        exact Option.noConfusion h
      next st4 cs2 heq2 =>
        have ht := runTools_state (by rw [heq2] :
          (runTools st3.functions st3 tc).1 = some st4)
        have hcs2 : ∀ c ∈ cs2, ∃ n a, c = Call.invokeHandler n a := by
          intro c hc
          obtain ⟨n, a, hca, _⟩ := runTools_calls c (by rw [heq2]; exact hc)
          exact ⟨n, a, hca⟩
        split at h
        · exact Option.noConfusion h
        next st6 heq3 =>
          injection h with h
          subst h
          have h2 := runLoop2_state heq3
          constructor
          · rw [h2.1]
          · right
            refine ⟨st4.input, ?_, ?_⟩
            · simp [htc', createRequests, createRequests_append,
                createRequests_of_retrieves hcs1, createRequests_of_invokes hcs2, mkRequest]
            · obtain ⟨outs, ho, hfco⟩ := ht.2.2.2.2.2.2.2.2
              rw [ho, hl1.2.2.2.2.2.2.1]
              intro i hi
              exact hfco i (by simpa using hi)

/-- C5: a `function_call` output-item-done event in the first stream
whose name is not among the configured functions makes `respond` raise
(the `[0]` on the name filter fails hard) instead of skipping the
call, and no handler is invoked under that name. -/
theorem c5_unknown_tool :
    ∀ (st : ChatState) (env : Env) (prompt : String) (n : String),
    n ∈ fcNames env.stream1 → n ∉ functionNames st.functions →
    (respond st env prompt).1 = none ∧
    ∀ arguments, Call.invokeHandler n arguments ∉ (respond st env prompt).2 := by
  intro st env prompt n hin hnot
  simp only [respond]
  split
  next cs1 heq =>
    refine ⟨rfl, ?_⟩
    intro arguments hmem
    rcases List.mem_cons.mp hmem with hmem | hmem
    · cases hmem
    · obtain ⟨fid, cid, hc⟩ := runLoop1_calls (Call.invokeHandler n arguments)
        (by rw [heq]; exact hmem)
      cases hc
  next st3 tc cs1 heq =>
    have hcs1 : ∀ c ∈ cs1, ∃ fid cid, c = Call.retrieveFile fid cid := by
      intro c hc
      exact runLoop1_calls c (by rw [heq]; exact hc)
    have hkey : ∃ x ∈ tc, x.1 = n :=
      runLoop1_keys (by rw [heq]) n (Or.inr hin)
    have hfun : st3.functions = st.functions :=
      (runLoop1_state (by rw [heq] :
        (runLoop1 env { st with
            input := [],
            sections := st.sections ++ [{ role := "assistant", blocks := none }] }
          [] env.stream1).1 = some (st3, tc))).2.2.2.2.1
    have hnot3 : n ∉ functionNames st3.functions := by rw [hfun]; exact hnot
    obtain ⟨hf1, hf2⟩ := runTools_fail hnot3 st3 hkey
    rcases tc with _ | ⟨hd, tl⟩
    · obtain ⟨x, hx, _⟩ := hkey
      cases hx
    · rw [List.isEmpty_cons, if_neg Bool.false_ne_true]
      rcases heq2 : runTools st3.functions st3 (hd :: tl) with ⟨res, cs2⟩
      rw [heq2] at hf1 hf2
      have hres : res = none := hf1
      subst hres
      refine ⟨rfl, ?_⟩
      intro arguments hmem
      rcases List.mem_cons.mp hmem with hmem | hmem
      · cases hmem
      · rcases List.mem_append.mp hmem with hmem | hmem
        · obtain ⟨fid, cid, hc⟩ := hcs1 _ hmem
          cases hc
        · exact hf2 arguments hmem

/-- A concrete chat state with one registered function `f`. -/
def stateA : ChatState :=
  ⟨"gpt-4o", "", 1, [], some [⟨"f", fun _ => some "4"⟩], some "c0", [], [], none, 0, 0⟩

/-- A concrete environment whose first stream calls tool `f` and whose
SECOND stream also contains a `function_call` event (for `g`). -/
def envA : Env :=
  ⟨[Event.functionCallDone "f" "\x7b\x7d" "call1", Event.completed "r1" 3 5],
   [Event.functionCallDone "g" "\x7b\x7d" "call2", Event.outputTextDelta "ok"],
   fun _ _ => [7], fun s => s⟩

/-- Closed witness for C3: a run that does invoke a handler (so the
name-membership hypothesis is exercised) while the second stream
carries a function-call event that is ignored. -/
theorem c3_at_most_two_calls_witness :
    (createRequests (respond stateA envA "hi").2).length ≤ 2 ∧ "f" ∈ fcNames envA.stream1 :=
  ⟨(c3_at_most_two_calls stateA envA "hi").1,
   (c3_at_most_two_calls stateA envA "hi").2 "f" "\x7b\x7d" (by decide)⟩

/-- A concrete chat state with no registered functions. -/
def stateB : ChatState := ⟨"gpt-4o", "", 1, [], none, some "c0", [], [], none, 0, 0⟩

/-- A concrete environment with a plain text-and-completion first
stream. -/
def envB : Env :=
  ⟨[Event.outputTextDelta "Hi", Event.completed "r1" 3 5], [], fun _ _ => [7], fun s => s⟩

/-- The chat state `respond stateB envB "hello"` ends in. -/
def finalB : ChatState :=
  ⟨"gpt-4o", "", 1, [], none, some "c0",
   [⟨"assistant", some [⟨"text", Content.str "Hi", none, none⟩]⟩], [], some "r1", 3, 5⟩

/-- Closed witness for C4 at a concrete run. -/
theorem c4_buffer_flush_witness :
    finalB.input = [] ∧
    ((createRequests (respond stateB envB "hello").2).map (fun r => r.input) =
       [stateB.input ++ [InputItem.message "user" "hello"]] ∨
     ∃ outs, (createRequests (respond stateB envB "hello").2).map (fun r => r.input) =
       [stateB.input ++ [InputItem.message "user" "hello"], outs] ∧
       ∀ i ∈ outs, ∃ cid o, i = InputItem.functionCallOutput cid o) :=
  c4_buffer_flush stateB envB "hello" finalB rfl

/-- A concrete environment whose first stream calls the UNREGISTERED
tool `g`. -/
def envC : Env :=
  ⟨[Event.functionCallDone "g" "\x7b\x7d" "call1", Event.completed "r1" 3 5],
   [], fun _ _ => [7], fun s => s⟩

/-- Closed witness for C5: `respond` fails on the unknown tool name
`g` and never invokes a handler under it. -/
theorem c5_unknown_tool_witness :
    (respond stateA envC "hi").1 = none ∧
    Call.invokeHandler "g" "\x7b\x7d" ∉ (respond stateA envC "hi").2 :=
  ⟨(c5_unknown_tool stateA envC "hi" "g" (by decide) (by decide)).1,
   (c5_unknown_tool stateA envC "hi" "g" (by decide) (by decide)).2 "\x7b\x7d"⟩

/-- C6 (amended): for a `container_file_citation` annotation event the
substring heuristic is checked FIRST: when the file id does NOT occur
inside the filename, the fetched bytes always become a download block
(whatever the extension); when it does occur, an image extension
(.png/.jpg/.jpeg) renders the fetched bytes inline as an image block,
and any other extension is silently dropped — no block and no fetch at
all. -/
theorem c6_annotation_classification :
    ∀ (st : ChatState) (prompt : String) (s2 : List Event)
      (fc : String → Option String → List Nat) (rwf : String → String)
      (fid fname : String),
    (strContains fname fid = false →
      respond st ⟨[Event.annotationAdded "container_file_citation" fid fname], s2, fc, rwf⟩
          prompt =
        (some { st with
                  input := [],
                  sections := st.sections ++
                    [⟨"assistant", some [⟨"download", Content.bytes (fc fid st.container_id),
                      some fname, some fid⟩]⟩] },
         [Call.createResponse ⟨st.model, st.input ++ [InputItem.message "user" prompt],
            DEVELOPER_MESSAGE ++ st.instructions, st.temperature, st.tools,
            st.previous_response_id, true⟩,
          Call.retrieveFile fid st.container_id])) ∧
    (strContains fname fid = true →
      pathSuffix fname ∈ ([".png", ".jpg", ".jpeg"] : List String) →
      respond st ⟨[Event.annotationAdded "container_file_citation" fid fname], s2, fc, rwf⟩
          prompt =
        (some { st with
                  input := [],
                  sections := st.sections ++
                    [⟨"assistant", some [⟨"image", Content.bytes (fc fid st.container_id),
                      some fname, some fid⟩]⟩] },
         [Call.createResponse ⟨st.model, st.input ++ [InputItem.message "user" prompt],
            DEVELOPER_MESSAGE ++ st.instructions, st.temperature, st.tools,
            st.previous_response_id, true⟩,
          Call.retrieveFile fid st.container_id])) ∧
    (strContains fname fid = true →
      pathSuffix fname ∉ ([".png", ".jpg", ".jpeg"] : List String) →
      respond st ⟨[Event.annotationAdded "container_file_citation" fid fname], s2, fc, rwf⟩
          prompt =
        (some { st with
                  input := [],
                  sections := st.sections ++ [⟨"assistant", none⟩] },
         [Call.createResponse ⟨st.model, st.input ++ [InputItem.message "user" prompt],
            DEVELOPER_MESSAGE ++ st.instructions, st.temperature, st.tools,
            st.previous_response_id, true⟩])) := by
  intro st prompt s2 fc rwf fid fname
  refine ⟨?_, ?_, ?_⟩
  · intro hsub
    simp [respond, runLoop1, processEvent1, hsub, ChatState.updateLast, Section.update,
      List.getLast?_concat, List.dropLast_concat, createBlock, mkRequest]
  · intro hsub hext
    simp [respond, runLoop1, processEvent1, hsub, hext, ChatState.updateLast, Section.update,
      List.getLast?_concat, List.dropLast_concat, createBlock, mkRequest]
  · intro hsub hext
    simp [respond, runLoop1, processEvent1, hsub, hext, ChatState.updateLast, Section.update,
      List.getLast?_concat, List.dropLast_concat, createBlock, mkRequest]

/-- Closed witness for C6: all three annotation outcomes at concrete
inputs. -/
theorem c6_annotation_classification_witness :
    respond stateB ⟨[Event.annotationAdded "container_file_citation" "f9" "report.png"], [],
        fun _ _ => [7], fun s => s⟩ "p" =
      (some { stateB with
                input := [],
                sections := stateB.sections ++
                  [⟨"assistant", some [⟨"download", Content.bytes [7],
                    some "report.png", some "f9"⟩]⟩] },
       [Call.createResponse ⟨stateB.model, stateB.input ++ [InputItem.message "user" "p"],
          DEVELOPER_MESSAGE ++ stateB.instructions, stateB.temperature, stateB.tools,
          stateB.previous_response_id, true⟩,
        Call.retrieveFile "f9" stateB.container_id]) ∧
    respond stateB ⟨[Event.annotationAdded "container_file_citation" "gen" "gen-1.png"], [],
        fun _ _ => [7], fun s => s⟩ "p" =
      (some { stateB with
                input := [],
                sections := stateB.sections ++
                  [⟨"assistant", some [⟨"image", Content.bytes [7],
                    some "gen-1.png", some "gen"⟩]⟩] },
       [Call.createResponse ⟨stateB.model, stateB.input ++ [InputItem.message "user" "p"],
          DEVELOPER_MESSAGE ++ stateB.instructions, stateB.temperature, stateB.tools,
          stateB.previous_response_id, true⟩,
        Call.retrieveFile "gen" stateB.container_id]) ∧
    respond stateB ⟨[Event.annotationAdded "container_file_citation" "gen" "gen-1.csv"], [],
        fun _ _ => [7], fun s => s⟩ "p" =
      (some { stateB with
                input := [],
                sections := stateB.sections ++ [⟨"assistant", none⟩] },
       [Call.createResponse ⟨stateB.model, stateB.input ++ [InputItem.message "user" "p"],
          DEVELOPER_MESSAGE ++ stateB.instructions, stateB.temperature, stateB.tools,
          stateB.previous_response_id, true⟩]) :=
  ⟨(c6_annotation_classification stateB "p" [] (fun _ _ => [7]) (fun s => s)
      "f9" "report.png").1 (by decide),
   (c6_annotation_classification stateB "p" [] (fun _ _ => [7]) (fun s => s)
      "gen" "gen-1.png").2.1 (by decide) (by decide),
   (c6_annotation_classification stateB "p" [] (fun _ _ => [7]) (fun s => s)
      "gen" "gen-1.csv").2.2 (by decide) (by decide)⟩

/-- Closed counterexample to C6 as stated: a citation with an IMAGE
extension whose file id is not inside the filename becomes a DOWNLOAD
block, and a citation with a non-image extension whose file id is
inside the filename produces NO block at all — extension alone does
not decide the classification. -/
theorem c6_counterexample :
    ((respond stateB ⟨[Event.annotationAdded "container_file_citation" "f9" "report.png"], [],
        fun _ _ => [7], fun s => s⟩ "p").1.map (fun s => s.sections)) =
      some [⟨"assistant", some [⟨"download", Content.bytes [7],
        some "report.png", some "f9"⟩]⟩] ∧
    pathSuffix "report.png" = ".png" ∧
    ((respond stateB ⟨[Event.annotationAdded "container_file_citation" "gen" "gen-1.csv"], [],
        fun _ _ => [7], fun s => s⟩ "p").1.map (fun s => s.sections)) =
      some [⟨"assistant", none⟩] := by
  refine ⟨?_, ?_, ?_⟩ <;> decide

/-- C8 (amended): when a second streaming generation call is issued it
repeats the first call's model, instructions, temperature and tools,
carries the now-populated pending-input buffer (exclusively
`function_call_output` entries) and the continuation handle updated by
the first stream — but it OMITS the reasoning-summary parameter, and
its event loop is NOT the first pass's routing: every event other than
`response.completed` and text deltas is ignored, completion events
update only the continuation handle (not the token counters), and text
deltas skip the sandbox-link rewrite. -/
theorem c8_second_pass :
    (∀ (st : ChatState) (env : Env) (prompt : String) (r1 r2 : Request),
        createRequests (respond st env prompt).2 = [r1, r2] →
        r2.model = r1.model ∧ r2.instructions = r1.instructions ∧
        r2.temperature = r1.temperature ∧ r2.tools = r1.tools ∧
        r1.reasoning = true ∧ r2.reasoning = false ∧
        r2.previous_response_id = lastResponseId r1.previous_response_id env.stream1 ∧
        (∀ i ∈ r2.input, ∃ cid o, i = InputItem.functionCallOutput cid o)) ∧
    (∀ (s : ChatState) (e : Event),
        (∀ id it ot, e ≠ Event.completed id it ot) →
        (∀ d, e ≠ Event.outputTextDelta d) →
        processEvent2 s e = some s) ∧
    (∀ (s : ChatState) (id : String) (it ot : Nat),
        processEvent2 s (Event.completed id it ot) =
          some { s with previous_response_id := some id }) ∧
    (∀ (s : ChatState) (d : String),
        processEvent2 s (Event.outputTextDelta d) =
          s.updateLast "text" (Content.str d) none none) := by
  refine ⟨?_, ?_, fun s id it ot => rfl, fun s d => rfl⟩
  · intro st env prompt r1 r2 h
    simp only [respond] at h
    split at h
    next cs1 heq =>
      have hcs1 : ∀ c ∈ cs1, ∃ fid cid, c = Call.retrieveFile fid cid := by
        intro c hc
        exact runLoop1_calls c (by rw [heq]; exact hc)
      simp [createRequests, createRequests_of_retrieves hcs1] at h
    next st3 tc cs1 heq =>
      have hl1 := runLoop1_state (by rw [heq] :
        (runLoop1 env { st with
            input := [],
            sections := st.sections ++ [{ role := "assistant", blocks := none }] }
          [] env.stream1).1 = some (st3, tc))
      have hcs1 : ∀ c ∈ cs1, ∃ fid cid, c = Call.retrieveFile fid cid := by
        intro c hc
        exact runLoop1_calls c (by rw [heq]; exact hc)
      split at h
      · simp [createRequests, createRequests_of_retrieves hcs1] at h
      · split at h
        next cs2 heq2 =>
          have hcs2 : ∀ c ∈ cs2, ∃ n a, c = Call.invokeHandler n a := by
            intro c hc
            obtain ⟨n, a, hca, _⟩ := runTools_calls c (by rw [heq2]; exact hc)
            exact ⟨n, a, hca⟩
          simp [createRequests, createRequests_append,
            createRequests_of_retrieves hcs1, createRequests_of_invokes hcs2] at h
        next st4 cs2 heq2 =>
          have ht := runTools_state (by rw [heq2] :
            (runTools st3.functions st3 tc).1 = some st4)
          have hcs2 : ∀ c ∈ cs2, ∃ n a, c = Call.invokeHandler n a := by
            intro c hc
            obtain ⟨n, a, hca, _⟩ := runTools_calls c (by rw [heq2]; exact hc)
            exact ⟨n, a, hca⟩
          split at h
          all_goals
            simp only [createRequests, createRequests_append, List.append_eq,
              createRequests_of_retrieves hcs1, createRequests_of_invokes hcs2,
              List.nil_append, List.cons_append, List.cons.injEq, and_true] at h
          all_goals
            obtain ⟨h1, h2⟩ := h
          all_goals
            subst h1
          all_goals
            subst h2
          all_goals
            refine ⟨ht.1.trans hl1.1, ?_, ht.2.2.1.trans hl1.2.2.1, ht.2.2.2.1.trans hl1.2.2.2.1,
              rfl, rfl, ht.2.2.2.2.2.2.2.1.trans hl1.2.2.2.2.2.2.2, ?_⟩
          all_goals
            first
            | exact congrArg (fun x => DEVELOPER_MESSAGE ++ x) (ht.2.1.trans hl1.2.1)
            | skip
          all_goals
            obtain ⟨outs, ho, hfco⟩ := ht.2.2.2.2.2.2.2.2
          all_goals
            intro i hi
          all_goals
            have hi' : i ∈ st4.input := hi
          all_goals
            rw [show st4.input = outs from by
              rw [ho, hl1.2.2.2.2.2.2.1]; simp] at hi'
          all_goals
            exact hfco i hi'
  · intro s e h1 h2
    cases e with
    | completed id it ot => exact absurd rfl (h1 id it ot)
    | outputTextDelta d => exact absurd rfl (h2 d)
    | codeDelta d => rfl
    | functionCallDone n a c => rfl
    | reasoningDelta d => rfl
    | reasoningDone => rfl
    | genImage x y z => rfl
    | annotationAdded a b c => rfl
    | other => rfl

/-- The first request `respond stateA envA "hi"` issues. -/
def reqA1 : Request :=
  ⟨"gpt-4o", [InputItem.message "user" "hi"], DEVELOPER_MESSAGE, 1, [], none, true⟩

/-- The second request `respond stateA envA "hi"` issues. -/
def reqA2 : Request :=
  ⟨"gpt-4o", [InputItem.functionCallOutput "call1" "4"], DEVELOPER_MESSAGE, 1, [],
   some "r1", false⟩

set_option maxRecDepth 8192 in
/-- Closed witness for C8 at the concrete two-request run. -/
theorem c8_second_pass_witness :
    reqA2.model = reqA1.model ∧ reqA2.instructions = reqA1.instructions ∧
    reqA2.temperature = reqA1.temperature ∧ reqA2.tools = reqA1.tools ∧
    reqA1.reasoning = true ∧ reqA2.reasoning = false ∧
    reqA2.previous_response_id = lastResponseId reqA1.previous_response_id envA.stream1 := by
  have h := c8_second_pass.1 stateA envA "hi" reqA1 reqA2 (by decide)
  exact ⟨h.1, h.2.1, h.2.2.1, h.2.2.2.1, h.2.2.2.2.1, h.2.2.2.2.2.1, h.2.2.2.2.2.2.1⟩

/-- A concrete environment whose second stream carries a code delta. -/
def envD : Env :=
  ⟨[Event.functionCallDone "f" "\x7b\x7d" "call1"], [Event.codeDelta "x"],
   fun _ _ => [7], fun s => s⟩

/-- A concrete chat state with one open assistant section. -/
def sampleC : ChatState :=
  ⟨"gpt-4o", "", 1, [], none, some "c0", [⟨"assistant", none⟩], [], none, 0, 0⟩

/-- Closed counterexample to C8 as stated: the second pass is NOT the
first pass's routing and not the same call shape — a code delta in the
second stream produces no code block (first-pass routing would), a
completion event in the second loop does not accumulate token usage
(the first loop does), and the second request drops the
reasoning-summary parameter the first request carries. -/
theorem c8_counterexample :
    ((respond stateA envD "hi").1.map (fun s => s.sections)) =
      some [⟨"assistant", none⟩] ∧
    (createRequests (respond stateA envD "hi").2).map (fun r => r.reasoning) =
      [true, false] ∧
    ((processEvent1 envD sampleC [] (Event.codeDelta "x")).1.map (fun p => p.1.sections)) =
      some [⟨"assistant", some [⟨"code", Content.str "x", none, none⟩]⟩] ∧
    (processEvent2 sampleC (Event.codeDelta "x")).map (fun s => s.sections) =
      some [⟨"assistant", none⟩] ∧
    ((processEvent1 envD sampleC [] (Event.completed "r" 3 5)).1.map
        (fun p => p.1.input_tokens)) = some 3 ∧
    (processEvent2 sampleC (Event.completed "r" 3 5)).map (fun s => s.input_tokens) =
      some 0 := by
  refine ⟨?_, ?_, ?_, ?_, ?_, ?_⟩ <;> decide

end StreamlitOpenai
